import Mathlib

/-!
PeachOS kernel heap (`src/memory/heap/heap.c`, `heap.h`, `status.h`).

A shallow embedding of the block allocator of PeachOS, a 32-bit x86 kernel.

* The block table is a byte array reached through a pointer.  It is embedded as
  a function `Int → Nat` giving the byte stored at `entries[i]`; the table
  proper is the index range `0 ≤ i < total`, the other indices are the memory
  around the table (C indexes the array with `int` values and does not check
  bounds).
* Byte addresses and byte sizes are 32-bit quantities; every operation on them
  that can leave the 32-bit range is written with an explicit reduction
  (`to_uint`, `to_int`).
* Block indices and block counts are held in `int`, `uint32_t` and `size_t`
  variables.  A table accepted by `heap_create` has fewer than `2^20` entries
  (`heap_create_total_bound`), so no conversion between these types can change
  the value of an index; they are embedded as unbounded integers.
-/

namespace PeachOS

/-! ## Constants -/

/-- Modelled from the spec: `PEACHOS_HEAP_BLOCK_SIZE` is defined in `config.h`,
which is not part of the sources at hand; the header comment of `heap.c` and the
specification fix the block size at 4096 bytes. -/
def PEACHOS_HEAP_BLOCK_SIZE : Nat := 4096

/-- Invalid argument error (`status.h`). -/
def EINVARG : Int := 2

/-- No memory error (`status.h`). -/
def ENOMEM : Int := 3

/-- Entry type of a block in use (`heap.h`). -/
def HEAP_BLOCK_TABLE_ENTRY_TAKEN : Nat := 0x01

/-- Entry type of a free block (`heap.h`). -/
def HEAP_BLOCK_TABLE_ENTRY_FREE : Nat := 0x00

/-- Flag `0b10000000`: the entry to the right is part of the same allocation. -/
def HEAP_BLOCK_HAS_NEXT : Nat := 0x80

/-- Flag `0b01000000`: the entry is the first one of its allocation. -/
def HEAP_BLOCK_IS_FIRST : Nat := 0x40

/-! ## Machine integers -/

/-- Value of an integer after conversion to a 32-bit unsigned type
(`unsigned int`, `size_t`, `uint32_t`, a pointer). -/
def to_uint (x : Int) : Nat := (x % 4294967296).toNat

/-- Value of an integer after conversion to the 32-bit two's complement type
`int`. -/
def to_int (x : Int) : Int := (x + 2147483648) % 4294967296 - 2147483648

/-! ## Data model -/

/-- The C `struct heap_table`: `entries` is the memory the entries pointer gives
access to (`entries i` is the byte `entries[i]`), `total` the number of blocks. -/
structure heap_table where
  entries : Int → Nat
  total : Nat

/-- The C `struct heap`: `table` stands for the table object the pointer field
refers to, `saddr` is the start address of the data pool. -/
structure heap where
  table : heap_table
  saddr : Nat

/-! ## Construction -/

/-- Source function `heap_validate_table`: the table must describe exactly the
blocks between `ptr` and `end`. -/
def heap_validate_table (ptr end_ : Nat) (table : heap_table) : Int :=
  let table_size : Nat := to_uint ((end_ : Int) - (ptr : Int))
  let total_blocks : Nat := table_size / PEACHOS_HEAP_BLOCK_SIZE
  if table.total ≠ total_blocks then -EINVARG else 0

/-- Source function `heap_validate_alignment`: is the address a multiple of the block size? -/
def heap_validate_alignment (address : Nat) : Bool :=
  to_uint (address : Int) % PEACHOS_HEAP_BLOCK_SIZE == 0

/-- The call `memset(entries, c, n)` on the entries of a table. -/
def memset (entries : Int → Nat) (c : Nat) (n : Nat) : Int → Nat :=
  fun i => if 0 ≤ i ∧ i < (n : Int) then c else entries i

/-- Source function `heap_create`.  The result is the returned status, the heap
structure after the call and the supplied table after the call.  When the heap
structure is written, its `table` field refers to the supplied table. -/
def heap_create (h : heap) (heap_address end_ : Nat) (table : heap_table) :
    Int × heap × heap_table :=
  if !heap_validate_alignment heap_address || !heap_validate_alignment end_ then
    -- result = -EINVARG; goto out
    (-EINVARG, h, table)
  else
    -- memset(heap, 0, sizeof(struct heap)); heap->saddr = heap_address; heap->table = table
    let heap1 : heap := { table := table, saddr := heap_address }
    let result := heap_validate_table heap_address end_ table
    if result < 0 then
      -- goto out
      (result, heap1, table)
    else
      -- sizeof(HEAP_BLOCK_TABLE_ENTRY) is 1
      let table_size : Nat := 1 * table.total
      let table1 : heap_table :=
        { table with entries := memset table.entries HEAP_BLOCK_TABLE_ENTRY_FREE table_size }
      (result, { heap1 with table := table1 }, table1)

/-! ## Allocation -/

/-- Source function `heap_align_value_to_upper` on a `uint32_t`: the addition is
carried out modulo `2^32`. -/
def heap_align_value_to_upper (val : Nat) : Nat :=
  if val % PEACHOS_HEAP_BLOCK_SIZE = 0 then val
  else
    let val1 := val - val % PEACHOS_HEAP_BLOCK_SIZE
    (val1 + PEACHOS_HEAP_BLOCK_SIZE) % 4294967296

/-- Source function `heap_get_entry_type`: the lower four bits of the entry. -/
def heap_get_entry_type (entry : Nat) : Nat := entry &&& 0x0f

/-- The `for` loop of `heap_get_start_block`, with `n` iterations left before
`i` reaches `table->total`; the value is `start_block` when the loop is left. -/
def heap_get_start_block_loop (entries : Int → Nat) (total_blocks : Nat) :
    Nat → Nat → Int → Int → Int
  | 0, _, _, start_block => start_block
  | n + 1, i, current_block, start_block =>
    if heap_get_entry_type (entries i) ≠ HEAP_BLOCK_TABLE_ENTRY_FREE then
      -- current_block = 0; start_block = -1; continue
      heap_get_start_block_loop entries total_blocks n (i + 1) 0 (-1)
    else
      let start_block1 : Int := if start_block = -1 then (i : Int) else start_block
      let current_block1 : Int := current_block + 1
      if current_block1 = (total_blocks : Int) then
        -- break
        start_block1
      else heap_get_start_block_loop entries total_blocks n (i + 1) current_block1 start_block1

/-- Source function `heap_get_start_block`: looks for `total_blocks` contiguous free blocks. -/
def heap_get_start_block (h : heap) (total_blocks : Nat) : Int :=
  let start_block :=
    heap_get_start_block_loop h.table.entries total_blocks h.table.total 0 0 (-1)
  if start_block = -1 then -ENOMEM else start_block

/-- Source function `heap_block_to_address`: `saddr + block *
PEACHOS_HEAP_BLOCK_SIZE`, an `int` product added to a 32-bit pointer. -/
def heap_block_to_address (h : heap) (block : Int) : Nat :=
  to_uint ((h.saddr : Int) + to_int (block * (PEACHOS_HEAP_BLOCK_SIZE : Int)))

/-- The `for` loop of `heap_mark_blocks_taken`, with `n` iterations left before
`i` exceeds `end_block`; `entry` is the byte the next iteration stores. -/
def heap_mark_blocks_taken_loop (end_block : Int) :
    Nat → Int → Nat → (Int → Nat) → (Int → Nat)
  | 0, _, _, entries => entries
  | n + 1, i, entry, entries =>
    let entries1 := Function.update entries i entry
    let entry1 := HEAP_BLOCK_TABLE_ENTRY_TAKEN
    let entry2 := if i ≠ end_block - 1 then entry1 ||| HEAP_BLOCK_HAS_NEXT else entry1
    heap_mark_blocks_taken_loop end_block n (i + 1) entry2 entries1

/-- Source function `heap_mark_blocks_taken`. -/
def heap_mark_blocks_taken (h : heap) (start_block total_blocks : Int) : heap :=
  let end_block : Int := (start_block + total_blocks) - 1
  let entry0 := HEAP_BLOCK_TABLE_ENTRY_TAKEN ||| HEAP_BLOCK_IS_FIRST
  let entry := if total_blocks > 1 then entry0 ||| HEAP_BLOCK_HAS_NEXT else entry0
  { h with table := { h.table with
      entries := heap_mark_blocks_taken_loop end_block (end_block + 1 - start_block).toNat
        start_block entry h.table.entries } }

/-- Source function `heap_malloc_blocks`: the returned address (0 is the null
pointer) and the heap after the call. -/
def heap_malloc_blocks (h : heap) (total_blocks : Nat) : Nat × heap :=
  let start_block := heap_get_start_block h total_blocks
  if start_block < 0 then (0, h)
  else
    let address := heap_block_to_address h start_block
    (address, heap_mark_blocks_taken h start_block (total_blocks : Int))

/-- Source function `heap_malloc`: `size` is a `size_t`. -/
def heap_malloc (h : heap) (size : Nat) : Nat × heap :=
  let aligned_size := heap_align_value_to_upper (to_uint (size : Int))
  let total_blocks := aligned_size / PEACHOS_HEAP_BLOCK_SIZE
  heap_malloc_blocks h total_blocks

/-! ## Release -/

/-- The `for` loop of `heap_mark_blocks_free`, with `n` iterations left before
`i` reaches `(int)table->total`. -/
def heap_mark_blocks_free_loop : Nat → Int → (Int → Nat) → (Int → Nat)
  | 0, _, entries => entries
  | n + 1, i, entries =>
    let entry := entries i
    let entries1 := Function.update entries i HEAP_BLOCK_TABLE_ENTRY_FREE
    if entry &&& HEAP_BLOCK_HAS_NEXT = 0 then
      -- break
      entries1
    else heap_mark_blocks_free_loop n (i + 1) entries1

/-- Source function `heap_mark_blocks_free`. -/
def heap_mark_blocks_free (h : heap) (starting_block : Int) : heap :=
  { h with table := { h.table with
      entries := heap_mark_blocks_free_loop ((h.table.total : Int) - starting_block).toNat
        starting_block h.table.entries } }

/-- Source function `heap_address_to_block`: the pointer difference as an `int`,
divided by the block size with the truncating division of C. -/
def heap_address_to_block (h : heap) (address : Nat) : Int :=
  Int.tdiv (to_int ((address : Int) - (h.saddr : Int))) (PEACHOS_HEAP_BLOCK_SIZE : Int)

/-- Source function `heap_free`. -/
def heap_free (h : heap) (ptr : Nat) : heap :=
  heap_mark_blocks_free h (heap_address_to_block h ptr)

/-- A table given by the list of its entries; the memory around it holds zero
bytes. -/
def table_of_list (l : List Nat) : heap_table :=
  { entries := fun i => if 0 ≤ i then l.getD i.toNat 0 else 0, total := l.length }

/-- A heap over the listed table entries with the pool at address `saddr`. -/
def heap_of_list (saddr : Nat) (l : List Nat) : heap :=
  { table := table_of_list l, saddr := saddr }

/-- The first `n` entries of the table of a heap, as a list. -/
def heap.dump (h : heap) (n : Nat) : List Nat :=
  (List.range n).map (fun i => h.table.entries (i : Int))

/-! ## Heaps used as concrete inputs -/

/-- A pool of 524289 blocks (2 GiB + 4 KiB) at address `0x1000` in which only the
last block, block 524288, is allocated (a one-block allocation). -/
def far_block_heap : heap :=
  { table := { entries := fun i => if i = 524288 then 0x41 else 0x00, total := 524289 },
    saddr := 0x1000 }

/-- A pool of 524289 blocks (2 GiB + 4 KiB) at address `0x1000` in which the
blocks `0 .. 524287` are allocated one by one and the last block, block 524288,
is free. -/
def upper_half_heap : heap :=
  { table := { entries := fun i => if 0 ≤ i ∧ i < 524288 then 0x41 else 0x00,
               total := 524289 },
    saddr := 0x1000 }

/-- A heap built through the public functions: `heap_create` over the two
blocks from `0x01000000` to `0x01002000`, followed by a one-byte allocation,
which takes block 0.  Its table reads `[0x41, 0x00]`. -/
def one_block_left_heap : heap :=
  (heap_malloc
    (heap_create (heap_of_list 0 []) 0x01000000 0x01002000 (table_of_list [7, 7])).2.1 1).2

/-- A heap built through the public functions: `heap_create` over the three
blocks from `0xFFFFF000` to `0x2000` (the end pointer lies beyond the top of the
32-bit address space and has wrapped), followed by two one-byte allocations. -/
def top_of_memory_heap : heap :=
  (heap_malloc (heap_malloc
    (heap_create (heap_of_list 0 []) 0xFFFFF000 0x2000 (table_of_list [7, 7, 7])).2.1 1).2 1).2

/-- A heap built through the public functions: `heap_create` over the single
block from `0` to `0x1000`; the pool starts at address 0. -/
def zero_page_heap : heap :=
  (heap_create (heap_of_list 0 []) 0 0x1000 (table_of_list [7])).2.1

/-- A heap built through the public functions: `heap_create` over the single
block from `0x01000000` to `0x01001000`, followed by a request for 8192 bytes
(two blocks). -/
def overrun_heap : heap :=
  (heap_malloc
    (heap_create (heap_of_list 0 []) 0x01000000 0x01001000 (table_of_list [7])).2.1 8192).2

/-- A pool of 524289 blocks (2 GiB + 4 KiB) at address `0x1000` in which every
block is allocated on its own (one-block allocations). -/
def packed_heap : heap :=
  { table := { entries := fun i => if 0 ≤ i ∧ i < 524289 then 0x41 else 0x00,
               total := 524289 },
    saddr := 0x1000 }

/-- A heap built through the public functions: `heap_create` over the six
blocks from `0x01000000` to `0x01006000`, followed by an allocation of three
blocks (12288 bytes) and one of two blocks (8192 bytes), which are adjacent. -/
def two_runs_heap : heap :=
  (heap_malloc (heap_malloc
    (heap_create (heap_of_list 0 []) 0x01000000 0x01006000
      (table_of_list [7, 7, 7, 7, 7, 7])).2.1 12288).2 8192).2

/-- A table of `2^20 - 1` entries, the number of blocks the code computes for
the reversed range from `0x2000` down to `0x1000`:
`(size_t)(0x1000 - 0x2000) / 4096 = 0xFFFFF000 / 4096`. -/
def reversed_range_table : heap_table :=
  { entries := fun _ => 0x00, total := 1048575 }

/-! ## Predicates used to state the properties -/

/-- The entry `i` of the table memory has type FREE. -/
def is_free (entries : Int → Nat) (i : Int) : Prop :=
  heap_get_entry_type (entries i) = HEAP_BLOCK_TABLE_ENTRY_FREE

instance (entries : Int → Nat) (i : Int) : Decidable (is_free entries i) := by
  unfold is_free; infer_instance

/-- The `k` entries `s, ..., s + k - 1` all have type FREE. -/
def free_run (entries : Int → Nat) (s k : Nat) : Prop :=
  ∀ j : Nat, j < k → is_free entries ((s + j : Nat) : Int)

instance (entries : Int → Nat) (s k : Nat) : Decidable (free_run entries s k) := by
  unfold free_run; infer_instance

/-! ## Machine integers: basic facts -/

theorem to_uint_natCast (n : Nat) (h : n < 4294967296) : to_uint (n : Int) = n := by
  unfold to_uint; omega

theorem to_uint_sub (a b : Nat) (hab : a ≤ b) (hb : b < 4294967296) :
    to_uint ((b : Int) - (a : Int)) = b - a := by
  unfold to_uint; omega

theorem to_uint_mod_block (n : Nat) : to_uint (n : Int) % 4096 = n % 4096 := by
  unfold to_uint; omega

theorem to_uint_lt (x : Int) : to_uint x < 4294967296 := by
  unfold to_uint; omega

theorem to_int_of_lt (x : Int) (h0 : 0 ≤ x) (h1 : x < 2147483648) : to_int x = x := by
  unfold to_int; omega

/-! ## Construction -/

theorem heap_validate_alignment_iff (address : Nat) :
    heap_validate_alignment address = true ↔ address % PEACHOS_HEAP_BLOCK_SIZE = 0 := by
  simp only [heap_validate_alignment, PEACHOS_HEAP_BLOCK_SIZE, to_uint_mod_block, beq_iff_eq]

theorem heap_validate_table_eq (ptr end_ : Nat) (table : heap_table) :
    heap_validate_table ptr end_ table =
      if table.total = to_uint ((end_ : Int) - (ptr : Int)) / PEACHOS_HEAP_BLOCK_SIZE then 0
      else -EINVARG := by
  unfold heap_validate_table
  by_cases h : table.total = to_uint ((end_ : Int) - (ptr : Int)) / PEACHOS_HEAP_BLOCK_SIZE <;>
    simp [h]

/-- The status returned by `heap_create`, for arbitrary arguments. -/
theorem heap_create_status (h : heap) (ptr end_ : Nat) (table : heap_table) :
    (heap_create h ptr end_ table).1 =
      if ptr % PEACHOS_HEAP_BLOCK_SIZE = 0 ∧ end_ % PEACHOS_HEAP_BLOCK_SIZE = 0 ∧
          table.total = to_uint ((end_ : Int) - (ptr : Int)) / PEACHOS_HEAP_BLOCK_SIZE
      then 0 else -EINVARG := by
  unfold heap_create
  by_cases h1 : ptr % PEACHOS_HEAP_BLOCK_SIZE = 0
  · by_cases h2 : end_ % PEACHOS_HEAP_BLOCK_SIZE = 0
    · have a1 := (heap_validate_alignment_iff ptr).2 h1
      have a2 := (heap_validate_alignment_iff end_).2 h2
      by_cases h3 : table.total = to_uint ((end_ : Int) - (ptr : Int)) / PEACHOS_HEAP_BLOCK_SIZE
      · simp [a1, a2, heap_validate_table_eq, h1, h2, h3]
      · simp [a1, a2, heap_validate_table_eq, h1, h2, h3, EINVARG]
    · have a2 : heap_validate_alignment end_ = false := by
        rw [Bool.eq_false_iff]; intro hc; exact h2 ((heap_validate_alignment_iff end_).1 hc)
      simp [a2, h2]
  · have a1 : heap_validate_alignment ptr = false := by
      rw [Bool.eq_false_iff]; intro hc; exact h1 ((heap_validate_alignment_iff ptr).1 hc)
    simp [a1, h1]

/-- Every table that `heap_create` accepts has fewer than `2^20` entries. -/
theorem heap_create_total_bound (h : heap) (ptr end_ : Nat) (table : heap_table)
    (hok : (heap_create h ptr end_ table).1 = 0) : table.total < 1048576 := by
  rw [heap_create_status] at hok
  split at hok
  · rename_i hc
    have := to_uint_lt ((end_ : Int) - (ptr : Int))
    rw [hc.2.2]
    simp only [PEACHOS_HEAP_BLOCK_SIZE]
    omega
  · simp [EINVARG] at hok

/-- C7, as stated, fails: both addresses of the reversed range `0x2000`,
`0x1000` are block-aligned and the total of `reversed_range_table`, 1048575,
differs from `(pool_end - pool_start) / block_size` (which is `-1` in the
integers and `0` with a truncated difference), yet `heap_create` returns 0: the
code compares the total with `(size_t)(end - ptr) / 4096`, where the difference
has wrapped to `0xFFFFF000`. -/
theorem heap_create_accepts_reversed_range :
    0x2000 % PEACHOS_HEAP_BLOCK_SIZE = 0 ∧
    0x1000 % PEACHOS_HEAP_BLOCK_SIZE = 0 ∧
    ((0x1000 : Int) - (0x2000 : Int)) / (PEACHOS_HEAP_BLOCK_SIZE : Int) = -1 ∧
    (reversed_range_table.total : Int) ≠
      ((0x1000 : Int) - (0x2000 : Int)) / (PEACHOS_HEAP_BLOCK_SIZE : Int) ∧
    (reversed_range_table.total : Int) ≠
      Int.tdiv ((0x1000 : Int) - (0x2000 : Int)) (PEACHOS_HEAP_BLOCK_SIZE : Int) ∧
    reversed_range_table.total ≠ (0x1000 - 0x2000) / PEACHOS_HEAP_BLOCK_SIZE ∧
    reversed_range_table.total =
      to_uint ((0x1000 : Int) - (0x2000 : Int)) / PEACHOS_HEAP_BLOCK_SIZE ∧
    (heap_create (heap_of_list 0 []) 0x2000 0x1000 reversed_range_table).1 = 0 ∧
    (heap_create (heap_of_list 0 []) 0x2000 0x1000 reversed_range_table).1 ≠ -EINVARG := by
  decide

/-- C7 (amended): for every range `pool_start ≤ pool_end` of 32-bit addresses,
`heap_create` returns `-EINVARG` if and only if `pool_start` is not a multiple
of the block size, or `pool_end` is not a multiple of the block size, or
`table.total` differs from `(pool_end - pool_start) / block_size` (last
conjunct).  For arbitrary arguments the same holds with the quotient the code
computes, `(size_t)(end - ptr) / PEACHOS_HEAP_BLOCK_SIZE`, in which the
difference is reduced modulo `2^32` (first conjunct).  In every other case
`heap_create` returns 0.  Read per sentence: with a correctly sized table it
fails iff an address is misaligned, and with both addresses aligned it fails iff
the table total mismatches. -/
theorem heap_create_invalid_iff (h : heap) (pool_start pool_end : Nat) (table : heap_table) :
    ((heap_create h pool_start pool_end table).1 = -EINVARG ↔
      (pool_start % PEACHOS_HEAP_BLOCK_SIZE ≠ 0 ∨ pool_end % PEACHOS_HEAP_BLOCK_SIZE ≠ 0 ∨
        table.total ≠
          to_uint ((pool_end : Int) - (pool_start : Int)) / PEACHOS_HEAP_BLOCK_SIZE)) ∧
    ((heap_create h pool_start pool_end table).1 ≠ -EINVARG →
      (heap_create h pool_start pool_end table).1 = 0) ∧
    (table.total = to_uint ((pool_end : Int) - (pool_start : Int)) / PEACHOS_HEAP_BLOCK_SIZE →
      ((heap_create h pool_start pool_end table).1 = -EINVARG ↔
        (pool_start % PEACHOS_HEAP_BLOCK_SIZE ≠ 0 ∨ pool_end % PEACHOS_HEAP_BLOCK_SIZE ≠ 0))) ∧
    (pool_start % PEACHOS_HEAP_BLOCK_SIZE = 0 → pool_end % PEACHOS_HEAP_BLOCK_SIZE = 0 →
      ((heap_create h pool_start pool_end table).1 = -EINVARG ↔
        table.total ≠
          to_uint ((pool_end : Int) - (pool_start : Int)) / PEACHOS_HEAP_BLOCK_SIZE)) ∧
    (pool_start ≤ pool_end → pool_end < 4294967296 →
      to_uint ((pool_end : Int) - (pool_start : Int)) / PEACHOS_HEAP_BLOCK_SIZE =
        (pool_end - pool_start) / PEACHOS_HEAP_BLOCK_SIZE) ∧
    (pool_start ≤ pool_end → pool_end < 4294967296 →
      ((heap_create h pool_start pool_end table).1 = -EINVARG ↔
        (pool_start % PEACHOS_HEAP_BLOCK_SIZE ≠ 0 ∨ pool_end % PEACHOS_HEAP_BLOCK_SIZE ≠ 0 ∨
          table.total ≠ (pool_end - pool_start) / PEACHOS_HEAP_BLOCK_SIZE))) := by
  have hs := heap_create_status h pool_start pool_end table
  have hfirst : (heap_create h pool_start pool_end table).1 = -EINVARG ↔
      (pool_start % PEACHOS_HEAP_BLOCK_SIZE ≠ 0 ∨ pool_end % PEACHOS_HEAP_BLOCK_SIZE ≠ 0 ∨
        table.total ≠
          to_uint ((pool_end : Int) - (pool_start : Int)) / PEACHOS_HEAP_BLOCK_SIZE) := by
    rw [hs]
    by_cases hc : pool_start % PEACHOS_HEAP_BLOCK_SIZE = 0 ∧
        pool_end % PEACHOS_HEAP_BLOCK_SIZE = 0 ∧
        table.total = to_uint ((pool_end : Int) - (pool_start : Int)) / PEACHOS_HEAP_BLOCK_SIZE
    · rw [if_pos hc]
      constructor
      · intro h0; simp [EINVARG] at h0
      · rintro (h1 | h1 | h1)
        · exact absurd hc.1 h1
        · exact absurd hc.2.1 h1
        · exact absurd hc.2.2 h1
    · rw [if_neg hc]
      constructor
      · intro _
        by_contra hn
        push_neg at hn
        exact hc hn
      · intro _; rfl
  refine ⟨hfirst, ?_, ?_, ?_, ?_, ?_⟩
  · rw [hs]
    split
    · intro _; rfl
    · intro hn; exact absurd rfl hn
  · intro ht
    rw [hs]
    by_cases hc : pool_start % PEACHOS_HEAP_BLOCK_SIZE = 0 ∧
        pool_end % PEACHOS_HEAP_BLOCK_SIZE = 0
    · rw [if_pos ⟨hc.1, hc.2, ht⟩]
      constructor
      · intro h0; simp [EINVARG] at h0
      · rintro (h1 | h1)
        · exact absurd hc.1 h1
        · exact absurd hc.2 h1
    · rw [if_neg (fun hx => hc ⟨hx.1, hx.2.1⟩)]
      constructor
      · intro _
        by_contra hn
        push_neg at hn
        exact hc hn
      · intro _; rfl
  · intro h1 h2
    rw [hs]
    by_cases hc : table.total =
        to_uint ((pool_end : Int) - (pool_start : Int)) / PEACHOS_HEAP_BLOCK_SIZE
    · rw [if_pos ⟨h1, h2, hc⟩]
      constructor
      · intro h0; simp [EINVARG] at h0
      · intro hn; exact absurd hc hn
    · rw [if_neg (fun hx => hc hx.2.2)]
      exact ⟨fun _ => hc, fun _ => rfl⟩
  · intro hle hlt
    rw [to_uint_sub pool_start pool_end hle hlt]
  · intro hle hlt
    rw [hfirst, to_uint_sub pool_start pool_end hle hlt]

/-- C7 (amended) at concrete inputs: a 100 MB pool at `0x01000000` with a table
of 25600 entries is accepted, the same pool with a misaligned end is refused,
and so is the pool with a table of 25599 entries. -/
theorem heap_create_invalid_iff_witness :
    (heap_create (heap_of_list 0 []) 0x01000000 0x07400000
        { entries := fun _ => 0, total := 25600 }).1 = 0 ∧
    (heap_create (heap_of_list 0 []) 0x01000000 0x07400001
        { entries := fun _ => 0, total := 25600 }).1 = -EINVARG ∧
    (heap_create (heap_of_list 0 []) 0x01000000 0x07400000
        { entries := fun _ => 0, total := 25599 }).1 = -EINVARG := by
  refine ⟨?_, ?_, ?_⟩
  · apply (heap_create_invalid_iff _ _ _ _).2.1
    rw [Ne, (heap_create_invalid_iff _ _ _ _).2.2.2.2.2 (by decide) (by decide)]
    decide
  · rw [(heap_create_invalid_iff _ _ _ _).2.2.2.2.2 (by decide) (by decide)]
    decide
  · rw [(heap_create_invalid_iff _ _ _ _).2.2.2.2.2 (by decide) (by decide)]
    decide

/-- C8, as stated, fails: with aligned addresses and a table whose total does
not match the pool, `heap_create` returns `-EINVARG` after it has overwritten
the heap structure (here `saddr` changes from 0 to 4096). -/
theorem heap_create_failure_mutates_heap :
    (heap_create (heap_of_list 0 []) 4096 8192 (table_of_list [1, 2, 3, 4, 5])).1 = -EINVARG ∧
    (heap_create (heap_of_list 0 []) 4096 8192 (table_of_list [1, 2, 3, 4, 5])).2.1.saddr ≠
      (heap_of_list 0 []).saddr := by
  decide

/-- C8 (amended): whenever `heap_create` returns `-EINVARG` the supplied table
is left as it was, entries and total; when `pool_start` or `pool_end` is
misaligned the heap structure is unchanged as well; when both are aligned (the
table total mismatches) the heap structure has already been overwritten with
`saddr = pool_start` and a reference to the supplied, unmodified table. -/
theorem heap_create_failure_effect (h : heap) (pool_start pool_end : Nat) (table : heap_table)
    (hfail : (heap_create h pool_start pool_end table).1 = -EINVARG) :
    (heap_create h pool_start pool_end table).2.2 = table ∧
    ((pool_start % PEACHOS_HEAP_BLOCK_SIZE ≠ 0 ∨ pool_end % PEACHOS_HEAP_BLOCK_SIZE ≠ 0) →
      (heap_create h pool_start pool_end table).2.1 = h) ∧
    ((pool_start % PEACHOS_HEAP_BLOCK_SIZE = 0 ∧ pool_end % PEACHOS_HEAP_BLOCK_SIZE = 0) →
      (heap_create h pool_start pool_end table).2.1 = { table := table, saddr := pool_start }) := by
  have e1 := heap_validate_alignment_iff pool_start
  have e2 := heap_validate_alignment_iff pool_end
  unfold heap_create at hfail ⊢
  by_cases a1 : heap_validate_alignment pool_start = true
  · by_cases a2 : heap_validate_alignment pool_end = true
    · have m1 := e1.1 a1
      have m2 := e2.1 a2
      simp only [a1, a2, Bool.not_true, Bool.or_self, Bool.false_eq_true, if_false] at hfail ⊢
      by_cases hv : heap_validate_table pool_start pool_end table < 0
      · simp only [hv, if_true]
        refine ⟨trivial, ?_, fun _ => trivial⟩
        rintro (hx | hx)
        · exact absurd m1 hx
        · exact absurd m2 hx
      · simp only [hv, if_false] at hfail
        rw [hfail] at hv
        exact absurd (by decide) hv
    · have a2f : heap_validate_alignment pool_end = false := by simpa using a2
      have m2 : ¬ pool_end % PEACHOS_HEAP_BLOCK_SIZE = 0 := fun hx => a2 (e2.2 hx)
      simp only [a2f, Bool.not_false, Bool.or_true, if_true]
      exact ⟨trivial, fun _ => trivial, fun hx => absurd hx.2 m2⟩
  · have a1f : heap_validate_alignment pool_start = false := by simpa using a1
    have m1 : ¬ pool_start % PEACHOS_HEAP_BLOCK_SIZE = 0 := fun hx => a1 (e1.2 hx)
    simp only [a1f, Bool.not_false, Bool.true_or, if_true]
    exact ⟨trivial, fun _ => trivial, fun hx => absurd hx.1 m1⟩

/-- C8 (amended) at a concrete input: a table of 5 entries offered for a pool of
one block. -/
theorem heap_create_failure_effect_witness :
    (heap_create (heap_of_list 0 []) 4096 8192 (table_of_list [1, 2, 3, 4, 5])).1 = -EINVARG ∧
    (heap_create (heap_of_list 0 []) 4096 8192 (table_of_list [1, 2, 3, 4, 5])).2.2 =
      table_of_list [1, 2, 3, 4, 5] :=
  ⟨by decide, (heap_create_failure_effect (heap_of_list 0 []) 4096 8192
    (table_of_list [1, 2, 3, 4, 5]) (by decide)).1⟩

/-- C9: for every aligned pool range and every table whose total equals
`(pool_end - pool_start) / block_size` (the value the code computes,
`(size_t)(end - ptr) / PEACHOS_HEAP_BLOCK_SIZE`, which is the plain quotient for
`pool_start ≤ pool_end`, see `to_uint_sub`), whatever the previous contents of
the table and of the heap structure, `heap_create` returns 0; afterwards every
entry `0 .. total-1` is FREE (0x00), the memory around the table is untouched,
`heap.saddr` is `pool_start`, and `heap.table` is the supplied table (same
total).  Running it on a used heap therefore resets the table to all-free. -/
theorem heap_create_success (h : heap) (pool_start pool_end : Nat) (table : heap_table)
    (hs : pool_start % PEACHOS_HEAP_BLOCK_SIZE = 0)
    (he : pool_end % PEACHOS_HEAP_BLOCK_SIZE = 0)
    (ht : table.total =
      to_uint ((pool_end : Int) - (pool_start : Int)) / PEACHOS_HEAP_BLOCK_SIZE) :
    (heap_create h pool_start pool_end table).1 = 0 ∧
    (∀ i : Int, 0 ≤ i → i < (table.total : Int) →
      (heap_create h pool_start pool_end table).2.1.table.entries i =
        HEAP_BLOCK_TABLE_ENTRY_FREE) ∧
    (∀ i : Int, 0 ≤ i → i < (table.total : Int) →
      (heap_create h pool_start pool_end table).2.1.table.entries i = 0x00) ∧
    (∀ i : Int, ¬ (0 ≤ i ∧ i < (table.total : Int)) →
      (heap_create h pool_start pool_end table).2.1.table.entries i = table.entries i) ∧
    (heap_create h pool_start pool_end table).2.1.saddr = pool_start ∧
    (heap_create h pool_start pool_end table).2.1.table.total = table.total ∧
    (heap_create h pool_start pool_end table).2.1.table =
      (heap_create h pool_start pool_end table).2.2 := by
  have a1 := (heap_validate_alignment_iff pool_start).2 hs
  have a2 := (heap_validate_alignment_iff pool_end).2 he
  have hv : heap_validate_table pool_start pool_end table = 0 := by
    rw [heap_validate_table_eq, if_pos ht]
  have hcr : heap_create h pool_start pool_end table =
      (0, { table := { table with
              entries := memset table.entries HEAP_BLOCK_TABLE_ENTRY_FREE (1 * table.total) },
            saddr := pool_start },
          { table with
              entries := memset table.entries HEAP_BLOCK_TABLE_ENTRY_FREE (1 * table.total) }) := by
    unfold heap_create
    simp [a1, a2, hv]
  rw [hcr]
  refine ⟨rfl, ?_, ?_, ?_, rfl, rfl, rfl⟩
  · intro i h0 h1
    simp only [memset, one_mul]
    rw [if_pos ⟨h0, h1⟩]
  · intro i h0 h1
    simp only [memset, one_mul]
    rw [if_pos ⟨h0, h1⟩]
    rfl
  · intro i hi
    simp only [memset, one_mul]
    rw [if_neg hi]

/-- C9 at a concrete input: construction over a used three-block table. -/
theorem heap_create_success_witness :
    (heap_create (heap_of_list 0x01000000 [0xC1, 0x81, 0x01]) 0x01000000 0x01003000
        (table_of_list [0xC1, 0x81, 0x01])).1 = 0 ∧
    (heap_create (heap_of_list 0x01000000 [0xC1, 0x81, 0x01]) 0x01000000 0x01003000
        (table_of_list [0xC1, 0x81, 0x01])).2.1.table.entries 2 = 0x00 :=
  ⟨(heap_create_success (heap_of_list 0x01000000 [0xC1, 0x81, 0x01]) 0x01000000 0x01003000
      (table_of_list [0xC1, 0x81, 0x01]) (by decide) (by decide) (by decide)).1,
   (heap_create_success (heap_of_list 0x01000000 [0xC1, 0x81, 0x01]) 0x01000000 0x01003000
      (table_of_list [0xC1, 0x81, 0x01]) (by decide) (by decide) (by decide)).2.2.1 2
      (by decide) (by decide)⟩

/-! ## Rounding -/

/-- C10, as stated, fails: `0xFFFFFFFF` is not a multiple of the block size and
the rounded value is 0 (the 32-bit addition wraps), which is not larger than
the argument. -/
theorem heap_align_value_to_upper_wraps :
    4294967295 % PEACHOS_HEAP_BLOCK_SIZE ≠ 0 ∧
    heap_align_value_to_upper 4294967295 = 0 ∧
    ¬ (4294967295 < heap_align_value_to_upper 4294967295) := by
  decide

/-- C10 (amended): for every 32-bit unsigned size, `heap_align_value_to_upper
size = size` when size is an exact multiple of the block size; for every other
size up to `2^32 - block_size` the result is the smallest multiple of the block
size that is larger than size; for the other sizes above `2^32 - block_size`
the 32-bit addition wraps and the result is 0. -/
theorem heap_align_value_to_upper_spec (size : Nat) (hsize : size < 4294967296) :
    (size % PEACHOS_HEAP_BLOCK_SIZE = 0 → heap_align_value_to_upper size = size) ∧
    (size % PEACHOS_HEAP_BLOCK_SIZE ≠ 0 → size ≤ 4294967296 - PEACHOS_HEAP_BLOCK_SIZE →
      heap_align_value_to_upper size % PEACHOS_HEAP_BLOCK_SIZE = 0 ∧
      size < heap_align_value_to_upper size ∧
      ∀ m : Nat, m % PEACHOS_HEAP_BLOCK_SIZE = 0 → size < m →
        heap_align_value_to_upper size ≤ m) ∧
    (size % PEACHOS_HEAP_BLOCK_SIZE ≠ 0 → 4294967296 - PEACHOS_HEAP_BLOCK_SIZE < size →
      heap_align_value_to_upper size = 0) := by
  simp only [heap_align_value_to_upper, PEACHOS_HEAP_BLOCK_SIZE]
  refine ⟨?_, ?_, ?_⟩
  · intro h0
    rw [if_pos h0]
  · intro h0 hb
    rw [if_neg h0]
    refine ⟨by omega, by omega, ?_⟩
    intro m hm hlt
    omega
  · intro h0 hb
    rw [if_neg h0]
    omega

/-- C10 (amended) at a concrete input: 5000 bytes are rounded to 8192. -/
theorem heap_align_value_to_upper_spec_witness :
    heap_align_value_to_upper 5000 % PEACHOS_HEAP_BLOCK_SIZE = 0 ∧
    5000 < heap_align_value_to_upper 5000 ∧
    ∀ m : Nat, m % PEACHOS_HEAP_BLOCK_SIZE = 0 → 5000 < m → heap_align_value_to_upper 5000 ≤ m :=
  (heap_align_value_to_upper_spec 5000 (by decide)).2.1 (by decide) (by decide)


/-! ## Marking a run as taken -/

/-- The table memory after the marking loop: the first stored byte is `entry`,
each later one is `TAKEN | HAS_NEXT`, except at `end_block` where it is `TAKEN`. -/
theorem heap_mark_blocks_taken_loop_eq (end_block : Int) :
    ∀ (n : Nat) (i : Int) (entry : Nat) (entries : Int → Nat) (j : Int),
      heap_mark_blocks_taken_loop end_block n i entry entries j =
        if j = i ∧ 0 < n then entry
        else if i < j ∧ j < i + (n : Int) then (if j ≠ end_block then 0x81 else 0x01)
        else entries j := by
  intro n
  induction n with
  | zero =>
    intro i entry entries j
    simp only [heap_mark_blocks_taken_loop]
    rw [if_neg (by omega), if_neg (by omega)]
  | succ n ih =>
    intro i entry entries j
    simp only [heap_mark_blocks_taken_loop]
    rw [ih]
    simp only [Function.update_apply]
    have c1 : HEAP_BLOCK_TABLE_ENTRY_TAKEN ||| HEAP_BLOCK_HAS_NEXT = 129 := by decide
    have c2 : HEAP_BLOCK_TABLE_ENTRY_TAKEN = 1 := rfl
    rw [c1, c2]
    split_ifs <;> first | rfl | omega

/-- The table memory after `heap_mark_blocks_taken h b k` with `k ≥ 1`. -/
theorem heap_mark_blocks_taken_entries (h : heap) (b k : Int) (hk : 1 ≤ k) (j : Int) :
    (heap_mark_blocks_taken h b k).table.entries j =
      if j = b then (if k > 1 then 0xC1 else 0x41)
      else if b < j ∧ j < b + k then (if j ≠ b + k - 1 then 0x81 else 0x01)
      else h.table.entries j := by
  simp only [heap_mark_blocks_taken]
  rw [heap_mark_blocks_taken_loop_eq]
  have c1 : HEAP_BLOCK_TABLE_ENTRY_TAKEN ||| HEAP_BLOCK_IS_FIRST ||| HEAP_BLOCK_HAS_NEXT = 0xC1 := by
    decide
  have c2 : HEAP_BLOCK_TABLE_ENTRY_TAKEN ||| HEAP_BLOCK_IS_FIRST = 0x41 := by decide
  rw [c1, c2]
  have hn : ((b + k - 1 + 1 - b).toNat : Int) = k := by omega
  have hn0 : 0 < (b + k - 1 + 1 - b).toNat := by omega
  rw [hn]
  split_ifs <;> first | rfl | omega

/-- A request for no block marks nothing. -/
theorem heap_mark_blocks_taken_zero (h : heap) (b : Int) :
    heap_mark_blocks_taken h b 0 = h := by
  simp only [heap_mark_blocks_taken]
  have hn : (b + 0 - 1 + 1 - b).toNat = 0 := by omega
  rw [hn]
  rfl

theorem heap_mark_blocks_taken_total (h : heap) (b k : Int) :
    (heap_mark_blocks_taken h b k).table.total = h.table.total := rfl

theorem heap_mark_blocks_taken_saddr (h : heap) (b k : Int) :
    (heap_mark_blocks_taken h b k).saddr = h.saddr := rfl

/-- C3: for every start block `b` and count `k ≥ 1` with `b + k ≤ table.total`,
after `heap_mark_blocks_taken(heap, b, k)` entry `b` equals `TAKEN|IS_FIRST`,
with HAS_NEXT added if and only if `k > 1`; every interior entry
`b+1 .. b+k-2` equals `TAKEN|HAS_NEXT`; and for `k > 1` the last entry `b+k-1`
equals TAKEN with no HAS_NEXT.  A single-block allocation is exactly
`TAKEN|IS_FIRST` (0x41). -/
theorem heap_mark_blocks_taken_chain (h : heap) (b k : Int) (_hb : 0 ≤ b) (hk : 1 ≤ k)
    (_hbk : b + k ≤ (h.table.total : Int)) :
    ((heap_mark_blocks_taken h b k).table.entries b =
      if k > 1 then HEAP_BLOCK_TABLE_ENTRY_TAKEN ||| HEAP_BLOCK_IS_FIRST ||| HEAP_BLOCK_HAS_NEXT
      else HEAP_BLOCK_TABLE_ENTRY_TAKEN ||| HEAP_BLOCK_IS_FIRST) ∧
    (∀ i : Int, b < i → i < b + k - 1 →
      (heap_mark_blocks_taken h b k).table.entries i =
        HEAP_BLOCK_TABLE_ENTRY_TAKEN ||| HEAP_BLOCK_HAS_NEXT) ∧
    (k > 1 → (heap_mark_blocks_taken h b k).table.entries (b + k - 1) =
        HEAP_BLOCK_TABLE_ENTRY_TAKEN ∧
      (heap_mark_blocks_taken h b k).table.entries (b + k - 1) &&& HEAP_BLOCK_HAS_NEXT = 0) ∧
    (k = 1 → (heap_mark_blocks_taken h b k).table.entries b = 0x41) := by
  have c1 : HEAP_BLOCK_TABLE_ENTRY_TAKEN ||| HEAP_BLOCK_IS_FIRST ||| HEAP_BLOCK_HAS_NEXT = 0xC1 := by
    decide
  have c2 : HEAP_BLOCK_TABLE_ENTRY_TAKEN ||| HEAP_BLOCK_IS_FIRST = 0x41 := by decide
  have c3 : HEAP_BLOCK_TABLE_ENTRY_TAKEN ||| HEAP_BLOCK_HAS_NEXT = 0x81 := by decide
  have c4 : HEAP_BLOCK_TABLE_ENTRY_TAKEN = 0x01 := rfl
  rw [c1, c2, c3, c4]
  refine ⟨?_, ?_, ?_, ?_⟩
  · rw [heap_mark_blocks_taken_entries h b k hk, if_pos rfl]
  · intro i h1 h2
    rw [heap_mark_blocks_taken_entries h b k hk, if_neg (by omega), if_pos (by omega),
      if_pos (by omega)]
  · intro h1
    rw [heap_mark_blocks_taken_entries h b k hk, if_neg (by omega), if_pos (by omega),
      if_neg (by omega)]
    exact ⟨rfl, by decide⟩
  · intro h1
    rw [heap_mark_blocks_taken_entries h b k hk, if_pos rfl, if_neg (by omega)]

/-- C3 at a concrete input: four blocks marked from block 1 of a six-block table. -/
theorem heap_mark_blocks_taken_chain_witness :
    (heap_mark_blocks_taken (heap_of_list 0 [0, 0, 0, 0, 0, 0]) 1 4).table.entries 1 = 0xC1 ∧
    (heap_mark_blocks_taken (heap_of_list 0 [0, 0, 0, 0, 0, 0]) 1 4).table.entries 3 = 0x81 ∧
    (heap_mark_blocks_taken (heap_of_list 0 [0, 0, 0, 0, 0, 0]) 1 4).table.entries 4 = 0x01 :=
  ⟨(heap_mark_blocks_taken_chain (heap_of_list 0 [0, 0, 0, 0, 0, 0]) 1 4 (by decide) (by decide)
      (by decide)).1,
   (heap_mark_blocks_taken_chain (heap_of_list 0 [0, 0, 0, 0, 0, 0]) 1 4 (by decide) (by decide)
      (by decide)).2.1 3 (by decide) (by decide),
   ((heap_mark_blocks_taken_chain (heap_of_list 0 [0, 0, 0, 0, 0, 0]) 1 4 (by decide) (by decide)
      (by decide)).2.2.1 (by decide)).1⟩

/-! ## Searching a free run -/

/-- Soundness of the scan, for every request (also one of zero blocks): the
loop leaves either `-1`, or the index `s` of a FREE entry of the table such that
the entries `s, s+1, ...` are FREE up to the end of the request or of the table,
whichever comes first. -/
theorem heap_get_start_block_loop_sound (entries : Int → Nat) (k : Nat) :
    ∀ (n i c : Nat) (sb : Int),
      c ≤ i → (c = 0 → sb = -1) → (0 < c → sb = ((i - c : Nat) : Int)) →
      (∀ j : Nat, i - c ≤ j → j < i → is_free entries (j : Int)) →
      heap_get_start_block_loop entries k n i (c : Int) sb = -1 ∨
      ∃ s : Nat, heap_get_start_block_loop entries k n i (c : Int) sb = (s : Int) ∧
        s < i + n ∧ is_free entries (s : Int) ∧
        ∀ j : Nat, s ≤ j → j < s + k → j < i + n → is_free entries (j : Int) := by
  intro n
  induction n with
  | zero =>
    intro i c sb hci h0 h1 hfree
    simp only [heap_get_start_block_loop]
    by_cases hc : c = 0
    · left; exact h0 hc
    · right
      refine ⟨i - c, h1 (by omega), by omega, hfree _ (le_refl _) (by omega), ?_⟩
      intro j hj1 _ hj3
      exact hfree j hj1 (by omega)
  | succ n ih =>
    intro i c sb hci h0 h1 hfree
    simp only [heap_get_start_block_loop]
    by_cases hf : heap_get_entry_type (entries (i : Int)) = HEAP_BLOCK_TABLE_ENTRY_FREE
    · rw [if_neg (by simpa using hf)]
      have hsb : (if sb = -1 then (i : Int) else sb) = ((i - c : Nat) : Int) := by
        by_cases hc : c = 0
        · rw [h0 hc, if_pos rfl]; subst hc; simp
        · have := h1 (by omega)
          rw [if_neg (by omega), this]
      rw [hsb]
      have hfree2 : ∀ j : Nat, i - c ≤ j → j < i + 1 → is_free entries (j : Int) := by
        intro j hj1 hj2
        by_cases hji : j = i
        · subst hji; exact hf
        · exact hfree j hj1 (by omega)
      by_cases hbr : (c : Int) + 1 = (k : Int)
      · rw [if_pos hbr]
        right
        refine ⟨i - c, rfl, by omega, hfree2 _ (le_refl _) (by omega), ?_⟩
        intro j hj1 hj2 _
        exact hfree2 j hj1 (by omega)
      · rw [if_neg hbr]
        have hcast : (c : Int) + 1 = ((c + 1 : Nat) : Int) := by push_cast; rfl
        rw [hcast]
        have hidx : i + 1 - (c + 1) = i - c := by omega
        have := ih (i + 1) (c + 1) ((i - c : Nat) : Int) (by omega) (by omega)
          (by intro _; rw [hidx]) (by rw [hidx]; exact hfree2)
        rcases this with hl | ⟨s, hs1, hs2, hs3, hs4⟩
        · left; exact hl
        · right
          exact ⟨s, hs1, by omega, hs3, fun j a b c => hs4 j a b (by omega)⟩
    · rw [if_pos (by simpa using hf)]
      have := ih (i + 1) 0 (-1) (by omega) (by intro _; rfl) (by intro hc; omega)
        (by intro j hj1 hj2; omega)
      rcases this with hl | ⟨s, hs1, hs2, hs3, hs4⟩
      · left; exact hl
      · right
        exact ⟨s, hs1, by omega, hs3, fun j a b c => hs4 j a b (by omega)⟩

/-- First fit: when a run of `k ≥ 1` FREE entries lies ahead in the table, the
loop leaves the smallest index at which such a run starts. -/
theorem heap_get_start_block_loop_first_fit (entries : Int → Nat) (k : Nat) (hk : 1 ≤ k) :
    ∀ (n i c : Nat) (sb : Int),
      c < k → c ≤ i → (c = 0 → sb = -1) → (0 < c → sb = ((i - c : Nat) : Int)) →
      (∀ j : Nat, i - c ≤ j → j < i → is_free entries (j : Int)) →
      (i - c = 0 ∨ ¬ is_free entries ((i - c - 1 : Nat) : Int)) →
      (∀ s : Nat, s + k ≤ i → ¬ free_run entries s k) →
      (∃ s : Nat, s + k ≤ i + n ∧ free_run entries s k) →
      ∃ s : Nat, heap_get_start_block_loop entries k n i (c : Int) sb = (s : Int) ∧
        s + k ≤ i + n ∧ free_run entries s k ∧ ∀ t : Nat, t < s → ¬ free_run entries t k := by
  intro n
  induction n with
  | zero =>
    intro i c sb _ _ _ _ _ _ hno hex
    obtain ⟨s, hs1, hs2⟩ := hex
    exact absurd hs2 (hno s (by omega))
  | succ n ih =>
    intro i c sb hck hci h0 h1 hfree hbound hno hex
    simp only [heap_get_start_block_loop]
    by_cases hf : heap_get_entry_type (entries (i : Int)) = HEAP_BLOCK_TABLE_ENTRY_FREE
    · rw [if_neg (by simpa using hf)]
      have hsb : (if sb = -1 then (i : Int) else sb) = ((i - c : Nat) : Int) := by
        by_cases hc : c = 0
        · rw [h0 hc, if_pos rfl]; subst hc; simp
        · have := h1 (by omega)
          rw [if_neg (by omega), this]
      rw [hsb]
      have hfree2 : ∀ j : Nat, i - c ≤ j → j < i + 1 → is_free entries (j : Int) := by
        intro j hj1 hj2
        by_cases hji : j = i
        · subst hji; exact hf
        · exact hfree j hj1 (by omega)
      by_cases hbr : (c : Int) + 1 = (k : Int)
      · rw [if_pos hbr]
        refine ⟨i - c, rfl, by omega, ?_, ?_⟩
        · intro j hj
          exact hfree2 (i - c + j) (by omega) (by omega)
        · intro t ht
          exact hno t (by omega)
      · rw [if_neg hbr]
        have hcast : (c : Int) + 1 = ((c + 1 : Nat) : Int) := by push_cast; rfl
        rw [hcast]
        have hidx : i + 1 - (c + 1) = i - c := by omega
        have hno2 : ∀ s : Nat, s + k ≤ i + 1 → ¬ free_run entries s k := by
          intro s hs hrun
          by_cases hsi : s + k ≤ i
          · exact hno s hsi hrun
          · rcases hbound with hb | hb
            · omega
            · apply hb
              have := hrun (i - c - 1 - s) (by omega)
              have he : s + (i - c - 1 - s) = i - c - 1 := by omega
              rw [he] at this
              exact this
        have := ih (i + 1) (c + 1) ((i - c : Nat) : Int) (by omega) (by omega) (by omega)
          (by intro _; rw [hidx]) (by rw [hidx]; exact hfree2) (by rw [hidx]; exact hbound)
          hno2 (by obtain ⟨s, hs1, hs2⟩ := hex; exact ⟨s, by omega, hs2⟩)
        obtain ⟨s, hs1, hs2, hs3, hs4⟩ := this
        exact ⟨s, hs1, by omega, hs3, hs4⟩
    · rw [if_pos (by simpa using hf)]
      have hno2 : ∀ s : Nat, s + k ≤ i + 1 → ¬ free_run entries s k := by
        intro s hs hrun
        by_cases hsi : s + k ≤ i
        · exact hno s hsi hrun
        · apply hf
          have := hrun (i - s) (by omega)
          have he : s + (i - s) = i := by omega
          rw [he] at this
          exact this
      have := ih (i + 1) 0 (-1) (by omega) (by omega) (by intro _; rfl) (by intro hc; omega)
        (by intro j hj1 hj2; omega) (by right; simpa using hf) hno2
        (by obtain ⟨s, hs1, hs2⟩ := hex; exact ⟨s, by omega, hs2⟩)
      obtain ⟨s, hs1, hs2, hs3, hs4⟩ := this
      exact ⟨s, hs1, by omega, hs3, hs4⟩
/-- What `heap_get_start_block` returns, for every table and request: `-ENOMEM`,
or the index `s` of a FREE entry of the table from which the entries are FREE up
to the end of the request or of the table, whichever comes first. -/
theorem heap_get_start_block_sound (h : heap) (k : Nat) :
    heap_get_start_block h k = -ENOMEM ∨
    ∃ s : Nat, heap_get_start_block h k = (s : Int) ∧ s < h.table.total ∧
      is_free h.table.entries (s : Int) ∧
      ∀ j : Nat, s ≤ j → j < s + k → j < h.table.total → is_free h.table.entries (j : Int) := by
  have := heap_get_start_block_loop_sound h.table.entries k h.table.total 0 0 (-1)
    (le_refl _) (fun _ => rfl) (by intro hc; omega) (by intro j _ hj; omega)
  simp only [heap_get_start_block]
  rcases this with hl | ⟨s, hs1, hs2, hs3, hs4⟩
  · left
    simp only [Nat.cast_zero] at hl
    rw [hl, if_pos rfl]
  · right
    simp only [Nat.cast_zero] at hs1
    rw [hs1, if_neg (by omega)]
    exact ⟨s, rfl, by omega, hs3, fun j a b c => hs4 j a b (by omega)⟩

/-- First fit for `heap_get_start_block`. -/
theorem heap_get_start_block_min (h : heap) (k : Nat) (hk : 1 ≤ k)
    (hex : ∃ s : Nat, s + k ≤ h.table.total ∧ free_run h.table.entries s k) :
    ∃ s : Nat, heap_get_start_block h k = (s : Int) ∧ s + k ≤ h.table.total ∧
      free_run h.table.entries s k ∧ ∀ t : Nat, t < s → ¬ free_run h.table.entries t k := by
  have := heap_get_start_block_loop_first_fit h.table.entries k hk h.table.total 0 0 (-1)
    (by omega) (le_refl _) (fun _ => rfl) (by intro hc; omega) (by intro j _ hj; omega)
    (Or.inl rfl) (by intro s hs; omega)
    (by obtain ⟨s, hs1, hs2⟩ := hex; exact ⟨s, by omega, hs2⟩)
  obtain ⟨s, hs1, hs2, hs3, hs4⟩ := this
  simp only [heap_get_start_block]
  simp only [Nat.cast_zero] at hs1
  rw [hs1, if_neg (by omega)]
  exact ⟨s, rfl, by omega, hs3, hs4⟩

/-- C2: first fit.  For every table and every `k ≥ 1` such that some run of `k`
consecutive FREE-typed entries exists inside the table,
`heap_get_start_block(heap, k)` returns the smallest index `s` with entries
`s .. s+k-1` all of type FREE (the run lies inside the table), even when a later
run fits `k` exactly and the first one is longer. -/
theorem heap_get_start_block_first_fit (h : heap) (k : Nat) (hk : 1 ≤ k)
    (hex : ∃ s : Nat, s + k ≤ h.table.total ∧ free_run h.table.entries s k) :
    ∃ s : Nat, heap_get_start_block h k = (s : Int) ∧ s + k ≤ h.table.total ∧
      free_run h.table.entries s k ∧ ∀ t : Nat, t < s → ¬ free_run h.table.entries t k :=
  heap_get_start_block_min h k hk hex

/-- C2 at a concrete input: free runs of lengths 5 (blocks 1..5) and 3 (blocks
7..9); a request for 3 blocks gets the start of the run of length 5. -/
theorem heap_get_start_block_first_fit_witness :
    heap_get_start_block (heap_of_list 0x01000000 [1, 0, 0, 0, 0, 0, 1, 0, 0, 0]) 3 = 1 ∧
    ∃ s : Nat, heap_get_start_block (heap_of_list 0x01000000 [1, 0, 0, 0, 0, 0, 1, 0, 0, 0]) 3
        = (s : Int) ∧
      s + 3 ≤ (heap_of_list 0x01000000 [1, 0, 0, 0, 0, 0, 1, 0, 0, 0]).table.total ∧
      free_run (heap_of_list 0x01000000 [1, 0, 0, 0, 0, 0, 1, 0, 0, 0]).table.entries s 3 ∧
      ∀ t : Nat, t < s →
        ¬ free_run (heap_of_list 0x01000000 [1, 0, 0, 0, 0, 0, 1, 0, 0, 0]).table.entries t 3 :=
  ⟨by decide,
   heap_get_start_block_first_fit (heap_of_list 0x01000000 [1, 0, 0, 0, 0, 0, 1, 0, 0, 0]) 3
    (by decide) ⟨7, by decide, by decide⟩⟩

/-- C1 is violated by the code: `one_block_left_heap` is built by `heap_create`
and one allocation, its table reads `[TAKEN|IS_FIRST, FREE]`, so no two
consecutive entries are FREE, yet a request for two blocks (8192 bytes) is not
refused.  `heap_get_start_block` returns block 1, the start of the free run that
ends the table, `heap_malloc` returns the address of block 1, entry 1 is
overwritten with `TAKEN|IS_FIRST|HAS_NEXT` and the byte behind the table with
`TAKEN`. -/
theorem heap_malloc_short_trailing_run :
    one_block_left_heap.table.total = 2 ∧
    one_block_left_heap.dump 2 = [0x41, 0x00] ∧
    (∀ s : Nat, s + 2 ≤ one_block_left_heap.table.total →
      ¬ free_run one_block_left_heap.table.entries s 2) ∧
    heap_get_start_block one_block_left_heap 2 = 1 ∧
    heap_get_start_block one_block_left_heap 2 ≠ -ENOMEM ∧
    (heap_malloc one_block_left_heap 8192).1 = 0x01001000 ∧
    one_block_left_heap.table.entries 1 = 0x00 ∧
    (heap_malloc one_block_left_heap 8192).2.table.entries 1 = 0xC1 ∧
    (heap_malloc one_block_left_heap 8192).2.table.entries 2 = 0x01 := by
  refine ⟨by decide, by decide, ?_, by decide, by decide, by decide, by decide, by decide,
    by decide⟩
  intro s hs hrun
  have h2 : s = 0 := by
    have : one_block_left_heap.table.total = 2 := by decide
    omega
  subst h2
  exact absurd (hrun 0 (by decide)) (by decide)

/-! ## Address translation -/

/-- The address of a block as a natural number: the pool start plus the byte
offset of the block, reduced to 32 bits. -/
theorem heap_block_to_address_eq (h : heap) (s : Nat) :
    heap_block_to_address h (s : Int) = (h.saddr + s * PEACHOS_HEAP_BLOCK_SIZE) % 4294967296 := by
  simp only [heap_block_to_address, PEACHOS_HEAP_BLOCK_SIZE, to_uint, to_int]
  push_cast
  omega

/-- The translation of the address of block `s` back to a block index is exact
as long as the byte offset of the block fits in an `int`. -/
theorem heap_address_to_block_of_block (h : heap) (s : Nat) (hs : s < 524288) :
    heap_address_to_block h (heap_block_to_address h (s : Int)) = (s : Int) := by
  simp only [heap_address_to_block, heap_block_to_address, PEACHOS_HEAP_BLOCK_SIZE]
  have : to_int ((to_uint ((h.saddr : Int) + to_int ((s : Int) * ((4096 : Nat) : Int))) : Int)
      - (h.saddr : Int)) = (s : Int) * 4096 := by
    unfold to_int to_uint
    push_cast
    omega
  rw [this]
  exact Int.mul_tdiv_cancel _ (by decide)

/-! ## Releasing a run -/

/-- The release loop started at `i` on a chain of `m` entries (the first `m - 1`
carry HAS_NEXT, and the last one does not unless the loop bound is reached with
it) clears exactly these `m` entries. -/
theorem heap_mark_blocks_free_loop_eq :
    ∀ (n : Nat) (i : Int) (entries : Int → Nat) (m : Nat), 1 ≤ m → m ≤ n →
      (∀ j : Nat, j + 1 < m → entries (i + (j : Int)) &&& HEAP_BLOCK_HAS_NEXT ≠ 0) →
      (m < n → entries (i + ((m - 1 : Nat) : Int)) &&& HEAP_BLOCK_HAS_NEXT = 0) →
      ∀ x : Int, heap_mark_blocks_free_loop n i entries x =
        if i ≤ x ∧ x < i + (m : Int) then HEAP_BLOCK_TABLE_ENTRY_FREE else entries x := by
  intro n
  induction n with
  | zero =>
    intro i entries m hm1 hmn
    omega
  | succ n ih =>
    intro i entries m hm1 hmn hnext hlast x
    simp only [heap_mark_blocks_free_loop]
    by_cases hm : m = 1
    · subst hm
      have hupd : Function.update entries i HEAP_BLOCK_TABLE_ENTRY_FREE x =
          if i ≤ x ∧ x < i + ((1 : Nat) : Int) then HEAP_BLOCK_TABLE_ENTRY_FREE else entries x := by
        simp only [Function.update_apply]
        split_ifs <;> first | rfl | omega
      by_cases hn : n = 0
      · subst hn
        by_cases hb : entries i &&& HEAP_BLOCK_HAS_NEXT = 0
        · rw [if_pos hb]; exact hupd
        · rw [if_neg hb]; simp only [heap_mark_blocks_free_loop]; exact hupd
      · have := hlast (by omega)
        simp only [Nat.sub_self, Nat.cast_zero, add_zero] at this
        rw [if_pos this]
        exact hupd
    · have h0 := hnext 0 (by omega)
      simp only [Nat.cast_zero, add_zero] at h0
      rw [if_neg h0]
      rw [ih (i + 1) (Function.update entries i HEAP_BLOCK_TABLE_ENTRY_FREE) (m - 1)
        (by omega) (by omega)]
      · simp only [Function.update_apply]
        have : ((m - 1 : Nat) : Int) = (m : Int) - 1 := by omega
        rw [this]
        split_ifs <;> first | rfl | omega
      · intro j hj
        have := hnext (j + 1) (by omega)
        rw [Function.update_noteq (by omega)]
        have e : i + ((j + 1 : Nat) : Int) = i + 1 + (j : Int) := by push_cast; ring
        rw [e] at this
        exact this
      · intro hlt
        have := hlast (by omega)
        rw [Function.update_noteq (by omega)]
        have e : i + ((m - 1 : Nat) : Int) = i + 1 + ((m - 1 - 1 : Nat) : Int) := by omega
        rw [e] at this
        exact this
/-- The first and the interior entries of a marked run carry HAS_NEXT. -/
theorem heap_mark_blocks_taken_has_next (h : heap) (b k : Int) (hk : 1 ≤ k) (j : Int)
    (hj1 : b ≤ j) (hj2 : j < b + k - 1) :
    (heap_mark_blocks_taken h b k).table.entries j &&& HEAP_BLOCK_HAS_NEXT ≠ 0 := by
  rw [heap_mark_blocks_taken_entries h b k hk]
  by_cases hjb : j = b
  · rw [if_pos hjb, if_pos (by omega)]; decide
  · rw [if_neg hjb, if_pos (by omega), if_pos (by omega)]; decide

/-- The last entry of a marked run does not carry HAS_NEXT. -/
theorem heap_mark_blocks_taken_last (h : heap) (b k : Int) (hk : 1 ≤ k) :
    (heap_mark_blocks_taken h b k).table.entries (b + k - 1) &&& HEAP_BLOCK_HAS_NEXT = 0 := by
  rw [heap_mark_blocks_taken_entries h b k hk]
  by_cases hk1 : k = 1
  · rw [if_pos (by omega), if_neg (by omega)]; decide
  · rw [if_neg (by omega), if_pos (by omega), if_neg (by omega)]; decide

/-- Releasing from block `b` a table that carries at `b .. b+k-1` the chain of
a `k`-block allocation clears exactly these entries. -/
theorem heap_mark_blocks_free_chain (h : heap) (b k : Nat) (hk : 1 ≤ k)
    (hbk : b + k ≤ h.table.total)
    (hchain : ∀ j : Nat, j < k → h.table.entries ((b + j : Nat) : Int) =
      (heap_mark_blocks_taken h (b : Int) (k : Int)).table.entries ((b + j : Nat) : Int))
    (x : Int) :
    (heap_mark_blocks_free h (b : Int)).table.entries x =
      if (b : Int) ≤ x ∧ x < (b : Int) + (k : Int) then HEAP_BLOCK_TABLE_ENTRY_FREE
      else h.table.entries x := by
  simp only [heap_mark_blocks_free]
  apply heap_mark_blocks_free_loop_eq _ _ _ k hk (by omega)
  · intro j hj
    have e : (b : Int) + (j : Int) = ((b + j : Nat) : Int) := by push_cast; rfl
    rw [e, hchain j (by omega)]
    exact heap_mark_blocks_taken_has_next h b k (by omega) _ (by omega) (by omega)
  · intro _
    have e : (b : Int) + ((k - 1 : Nat) : Int) = ((b + (k - 1) : Nat) : Int) := by push_cast; rfl
    rw [e, hchain (k - 1) (by omega)]
    have e2 : ((b + (k - 1) : Nat) : Int) = (b : Int) + (k : Int) - 1 := by omega
    rw [e2]
    exact heap_mark_blocks_taken_last h b k (by omega)

/-- C4, as stated, fails: `far_block_heap` has the shape of a heap that
`heap_create` accepts, its entry of block 524288 carries the chain of a
one-block allocation, and `heap_free` of the address of that block leaves it
TAKEN.  The byte offset of the block is `2^31`, which the `int` of
`heap_address_to_block` turns into the block index `-524288`. -/
theorem heap_free_far_block_not_reclaimed :
    (heap_create (heap_of_list 0 []) 0x1000 0x80002000 far_block_heap.table).1 = 0 ∧
    524288 + 1 ≤ far_block_heap.table.total ∧
    far_block_heap.table.entries 524288 =
      (heap_mark_blocks_taken far_block_heap 524288 1).table.entries 524288 ∧
    heap_block_to_address far_block_heap 524288 = 0x80001000 ∧
    heap_address_to_block far_block_heap (heap_block_to_address far_block_heap 524288)
      = -524288 ∧
    (heap_free far_block_heap (heap_block_to_address far_block_heap 524288)).table.entries 524288
      = 0x41 ∧
    (heap_free far_block_heap (heap_block_to_address far_block_heap 524288)).table.entries 524288
      ≠ HEAP_BLOCK_TABLE_ENTRY_FREE := by
  decide

/-- C4 (amended): for every table in which entries `b .. b+k-1` (`k ≥ 1`,
`b + k ≤ total`) carry the chain written by `heap_mark_blocks_taken(b, k)`, and
every block `b < 2^19` (the byte offset of the block fits in an `int`),
`heap_free` of the address of block `b` sets exactly those `k` entries to FREE
(0x00) and leaves every other entry byte-identical. -/
theorem heap_free_reclaims_run (h : heap) (b k : Nat) (hk : 1 ≤ k)
    (hbk : b + k ≤ h.table.total) (hb : b < 524288)
    (hchain : ∀ j : Nat, j < k → h.table.entries ((b + j : Nat) : Int) =
      (heap_mark_blocks_taken h (b : Int) (k : Int)).table.entries ((b + j : Nat) : Int)) :
    (∀ i : Int, (b : Int) ≤ i → i < (b : Int) + (k : Int) →
      (heap_free h (heap_block_to_address h (b : Int))).table.entries i = 0x00) ∧
    (∀ i : Int, ¬ ((b : Int) ≤ i ∧ i < (b : Int) + (k : Int)) →
      (heap_free h (heap_block_to_address h (b : Int))).table.entries i = h.table.entries i) ∧
    (heap_free h (heap_block_to_address h (b : Int))).table.total = h.table.total := by
  simp only [heap_free]
  rw [heap_address_to_block_of_block h b hb]
  refine ⟨?_, ?_, rfl⟩
  · intro i h1 h2
    rw [heap_mark_blocks_free_chain h b k hk hbk hchain, if_pos ⟨h1, h2⟩]
    rfl
  · intro i hi
    rw [heap_mark_blocks_free_chain h b k hk hbk hchain, if_neg hi]

/-- C4 (amended) at a concrete input: on a fresh six-block heap run A (3 blocks)
and run B (2 blocks) are allocated one after the other and A is freed; the
three entries of A are FREE and the two entries of B keep their bytes. -/
theorem heap_free_reclaims_run_witness :
    (heap_malloc (heap_malloc (heap_of_list 0x01000000 [0, 0, 0, 0, 0, 0]) 12288).2 8192).2.dump 6
      = [0xC1, 0x81, 0x01, 0xC1, 0x01, 0x00] ∧
    (heap_malloc (heap_of_list 0x01000000 [0, 0, 0, 0, 0, 0]) 12288).1 =
      heap_block_to_address
        (heap_malloc (heap_malloc (heap_of_list 0x01000000 [0, 0, 0, 0, 0, 0]) 12288).2 8192).2
        ((0 : Nat) : Int) ∧
    (heap_free
        (heap_malloc (heap_malloc (heap_of_list 0x01000000 [0, 0, 0, 0, 0, 0]) 12288).2 8192).2
        (heap_block_to_address
          (heap_malloc (heap_malloc (heap_of_list 0x01000000 [0, 0, 0, 0, 0, 0]) 12288).2 8192).2
          ((0 : Nat) : Int))).table.entries 2 = 0x00 ∧
    (heap_free
        (heap_malloc (heap_malloc (heap_of_list 0x01000000 [0, 0, 0, 0, 0, 0]) 12288).2 8192).2
        (heap_block_to_address
          (heap_malloc (heap_malloc (heap_of_list 0x01000000 [0, 0, 0, 0, 0, 0]) 12288).2 8192).2
          ((0 : Nat) : Int))).table.entries 3 = 0xC1 ∧
    (heap_free
        (heap_malloc (heap_malloc (heap_of_list 0x01000000 [0, 0, 0, 0, 0, 0]) 12288).2 8192).2
        (heap_block_to_address
          (heap_malloc (heap_malloc (heap_of_list 0x01000000 [0, 0, 0, 0, 0, 0]) 12288).2 8192).2
          ((0 : Nat) : Int))).table.entries 4 = 0x01 := by
  have key := heap_free_reclaims_run
    (heap_malloc (heap_malloc (heap_of_list 0x01000000 [0, 0, 0, 0, 0, 0]) 12288).2 8192).2
    0 3 (by decide) (by decide) (by decide) (by decide)
  refine ⟨by decide, by decide, key.1 2 (by decide) (by decide), ?_, ?_⟩
  · rw [key.2.1 3 (by decide)]; decide
  · rw [key.2.1 4 (by decide)]; decide
/-! ## Allocation followed by release -/

/-- The two outcomes of `heap_malloc_blocks`: a null address and an untouched
heap, or the address of a block `s` of the table from which the entries were
FREE up to the end of the request or of the table, and the heap marked there. -/
theorem heap_malloc_blocks_cases (h : heap) (k : Nat) :
    heap_malloc_blocks h k = (0, h) ∨
    ∃ s : Nat, heap_malloc_blocks h k =
        (heap_block_to_address h (s : Int), heap_mark_blocks_taken h (s : Int) (k : Int)) ∧
      s < h.table.total ∧ is_free h.table.entries (s : Int) ∧
      ∀ j : Nat, s ≤ j → j < s + k → j < h.table.total → is_free h.table.entries (j : Int) := by
  rcases heap_get_start_block_sound h k with hl | ⟨s, hs1, hs2, hs3, hs4⟩
  · left
    simp only [heap_malloc_blocks, hl]
    rw [if_pos (by decide)]
  · right
    refine ⟨s, ?_, hs2, hs3, hs4⟩
    simp only [heap_malloc_blocks, hs1]
    rw [if_neg (by omega)]

/-- The successful outcome of `heap_malloc_blocks` names the block found by
`heap_get_start_block`. -/
theorem heap_malloc_blocks_cases_start (h : heap) (k : Nat) :
    heap_malloc_blocks h k = (0, h) ∨
    ∃ s : Nat, heap_get_start_block h k = (s : Int) ∧
      heap_malloc_blocks h k =
        (heap_block_to_address h (s : Int), heap_mark_blocks_taken h (s : Int) (k : Int)) ∧
      s < h.table.total ∧ is_free h.table.entries (s : Int) ∧
      ∀ j : Nat, s ≤ j → j < s + k → j < h.table.total → is_free h.table.entries (j : Int) := by
  rcases heap_get_start_block_sound h k with hl | ⟨s, hs1, hs2, hs3, hs4⟩
  · left
    simp only [heap_malloc_blocks, hl]
    rw [if_pos (by decide)]
  · right
    refine ⟨s, hs1, ?_, hs2, hs3, hs4⟩
    simp only [heap_malloc_blocks, hs1]
    rw [if_neg (by omega)]

/-- Release undoes allocation at the level of block counts: when the FREE
entries of the table are zero bytes and the block found for the request lies
below block `2^19`, freeing the non-null address returned by
`heap_malloc_blocks` restores every entry of the table. -/
theorem heap_malloc_blocks_then_free (h : heap) (k : Nat)
    (hzero : ∀ i : Int, 0 ≤ i → i < (h.table.total : Int) → is_free h.table.entries i →
      h.table.entries i = 0x00)
    (hblock : heap_get_start_block h k < 524288)
    (hp : (heap_malloc_blocks h k).1 ≠ 0) :
    ∀ i : Int, 0 ≤ i → i < (h.table.total : Int) →
      (heap_free (heap_malloc_blocks h k).2 (heap_malloc_blocks h k).1).table.entries i =
        h.table.entries i := by
  rcases heap_malloc_blocks_cases_start h k with hl | ⟨s, hs0, hs1, hs2, hs3, hs4⟩
  · rw [hl] at hp; exact absurd rfl hp
  · rw [hs0] at hblock
    rw [hs1]
    intro i hi0 hi1
    have hblock : heap_address_to_block (heap_mark_blocks_taken h (s : Int) (k : Int))
        (heap_block_to_address h (s : Int)) = (s : Int) :=
      heap_address_to_block_of_block h s (by omega)
    simp only [heap_free]
    rw [hblock]
    by_cases hk : k = 0
    · subst hk
      rw [Nat.cast_zero, heap_mark_blocks_taken_zero]
      simp only [heap_mark_blocks_free]
      have hs0 : h.table.entries (s : Int) = 0x00 := hzero _ (by omega) (by omega) hs3
      rw [heap_mark_blocks_free_loop_eq _ _ _ 1 (le_refl _) (by omega) (by intro j hj; omega)
        (by intro _; simp only [Nat.sub_self, Nat.cast_zero, add_zero]; rw [hs0]; decide)]
      by_cases hx : (s : Int) ≤ i ∧ i < (s : Int) + ((1 : Nat) : Int)
      · rw [if_pos hx]
        have : i = (s : Int) := by omega
        rw [this, hs0]; rfl
      · rw [if_neg hx]
    · have hk1 : (1 : Int) ≤ (k : Int) := by omega
      simp only [heap_mark_blocks_free]
      rw [heap_mark_blocks_free_loop_eq _ _ _ (min k (h.table.total - s)) (by omega)
        (by simp only [heap_mark_blocks_taken_total]; omega)
        (by
          intro j hj
          exact heap_mark_blocks_taken_has_next h s k hk1 _ (by omega) (by omega))
        (by
          intro hlt
          simp only [heap_mark_blocks_taken_total] at hlt
          have e : (s : Int) + ((min k (h.table.total - s) - 1 : Nat) : Int) =
              (s : Int) + (k : Int) - 1 := by omega
          rw [e]
          exact heap_mark_blocks_taken_last h s k hk1)]
      by_cases hx : (s : Int) ≤ i ∧ i < (s : Int) + ((min k (h.table.total - s) : Nat) : Int)
      · rw [if_pos hx]
        have hnat : i = ((i.toNat : Nat) : Int) := by omega
        have hfree := hs4 i.toNat (by omega) (by omega) (by omega)
        rw [← hnat] at hfree
        rw [hzero i hi0 hi1 hfree]; rfl
      · rw [if_neg hx, heap_mark_blocks_taken_entries h s k hk1, if_neg (by omega),
          if_neg (by omega)]
/-- In `upper_half_heap` a request for one block finds block 524288. -/
theorem upper_half_heap_start_block : heap_get_start_block upper_half_heap 1 = 524288 := by
  have hex : ∃ s : Nat, s + 1 ≤ upper_half_heap.table.total ∧
      free_run upper_half_heap.table.entries s 1 := by
    refine ⟨524288, by decide, ?_⟩
    intro j hj
    have : j = 0 := by omega
    subst this
    decide
  obtain ⟨s, hs1, hs2, hs3, _⟩ := heap_get_start_block_min upper_half_heap 1 (le_refl _) hex
  have htot : upper_half_heap.table.total = 524289 := rfl
  have hfree : is_free upper_half_heap.table.entries ((s + 0 : Nat) : Int) := hs3 0 (by decide)
  have hge : 524288 ≤ s := by
    by_contra hlt
    have hval : upper_half_heap.table.entries ((s + 0 : Nat) : Int) = 0x41 := by
      simp only [upper_half_heap]
      rw [if_pos (by omega)]
    unfold is_free at hfree
    rw [hval] at hfree
    exact absurd hfree (by decide)
  have : s = 524288 := by omega
  rw [hs1, this]
  rfl

/-- The allocation of one byte in `upper_half_heap`. -/
theorem upper_half_heap_malloc :
    heap_malloc upper_half_heap 1 =
      (0x80001000, heap_mark_blocks_taken upper_half_heap 524288 1) := by
  have hk : heap_align_value_to_upper (to_uint ((1 : Nat) : Int)) / PEACHOS_HEAP_BLOCK_SIZE = 1 := by
    decide
  simp only [heap_malloc, heap_malloc_blocks]
  rw [hk, upper_half_heap_start_block, if_neg (by decide)]
  have ha : heap_block_to_address upper_half_heap 524288 = 0x80001000 := by decide
  rw [ha]
  rfl

/-- C5, as stated, fails: `upper_half_heap` has the shape of a heap that
`heap_create` accepts and every FREE entry of it is the byte 0x00;
`heap_malloc(heap, 1)` finds block 524288, the first block not below `2^19`,
returns its non-null address `0x80001000` and marks it, and `heap_free` of this
address leaves the block marked (the `int` byte offset is `-2^31`, so the walk
starts at the index `-524288`, outside the table): entry 524288 is `0x41`
instead of its value `0x00` before the allocation. -/
theorem heap_free_does_not_reverse_far_malloc :
    (heap_create (heap_of_list 0 []) 0x1000 0x80002000 upper_half_heap.table).1 = 0 ∧
    (∀ i : Int, 0 ≤ i → i < (upper_half_heap.table.total : Int) →
      is_free upper_half_heap.table.entries i → upper_half_heap.table.entries i = 0x00) ∧
    heap_get_start_block upper_half_heap
      (heap_align_value_to_upper (to_uint ((1 : Nat) : Int)) / PEACHOS_HEAP_BLOCK_SIZE) = 524288 ∧
    (heap_malloc upper_half_heap 1).1 = 0x80001000 ∧
    upper_half_heap.table.entries 524288 = 0x00 ∧
    (heap_malloc upper_half_heap 1).2.table.entries 524288 = 0x41 ∧
    (heap_free (heap_malloc upper_half_heap 1).2
      (heap_malloc upper_half_heap 1).1).table.entries 524288 = 0x41 := by
  have hk : heap_align_value_to_upper (to_uint ((1 : Nat) : Int)) / PEACHOS_HEAP_BLOCK_SIZE = 1 := by
    decide
  rw [upper_half_heap_malloc, hk]
  refine ⟨by decide, ?_, upper_half_heap_start_block, rfl, by decide, by decide, by decide⟩
  intro i h0 h1 hfree
  by_cases hi : 0 ≤ i ∧ i < 524288
  · have hval : upper_half_heap.table.entries i = 0x41 := by
      simp only [upper_half_heap]
      rw [if_pos hi]
    unfold is_free at hfree
    rw [hval] at hfree
    exact absurd hfree (by decide)
  · simp only [upper_half_heap]
    rw [if_neg hi]

/-- C5 (amended): for every heap whose FREE entries are all the byte 0x00 and
every size > 0 for which `heap_malloc(heap, size)` returns a non-null address
`p` of a block below `2^19` (the start block that `heap_get_start_block` finds
for the request is `< 2^19`, so that its byte offset fits in an `int`), calling
`heap_free(heap, p)` immediately afterwards restores every table entry to the
value it had before the `heap_malloc` call. -/
theorem heap_free_reverses_malloc (h : heap) (size : Nat) (_hsize : 0 < size)
    (hzero : ∀ i : Int, 0 ≤ i → i < (h.table.total : Int) → is_free h.table.entries i →
      h.table.entries i = 0x00)
    (hblock : heap_get_start_block h
      (heap_align_value_to_upper (to_uint (size : Int)) / PEACHOS_HEAP_BLOCK_SIZE) < 524288)
    (hp : (heap_malloc h size).1 ≠ 0) :
    ∀ i : Int, 0 ≤ i → i < (h.table.total : Int) →
      (heap_free (heap_malloc h size).2 (heap_malloc h size).1).table.entries i =
        h.table.entries i :=
  heap_malloc_blocks_then_free h _ hzero hblock hp

/-- C5 (amended) at a concrete input: 5000 bytes (two blocks) are allocated in a
table with one block in use and then freed. -/
theorem heap_free_reverses_malloc_witness :
    (heap_malloc (heap_of_list 0x01000000 [0x41, 0, 0, 0]) 5000).1 = 0x01001000 ∧
    (heap_malloc (heap_of_list 0x01000000 [0x41, 0, 0, 0]) 5000).2.dump 4 = [0x41, 0xC1, 0x01, 0] ∧
    heap_get_start_block (heap_of_list 0x01000000 [0x41, 0, 0, 0])
      (heap_align_value_to_upper (to_uint ((5000 : Nat) : Int)) / PEACHOS_HEAP_BLOCK_SIZE) = 1 ∧
    ∀ i : Int, 0 ≤ i → i < ((heap_of_list 0x01000000 [0x41, 0, 0, 0]).table.total : Int) →
      (heap_free (heap_malloc (heap_of_list 0x01000000 [0x41, 0, 0, 0]) 5000).2
        (heap_malloc (heap_of_list 0x01000000 [0x41, 0, 0, 0]) 5000).1).table.entries i =
        (heap_of_list 0x01000000 [0x41, 0, 0, 0]).table.entries i := by
  refine ⟨by decide, by decide, by decide,
    heap_free_reverses_malloc (heap_of_list 0x01000000 [0x41, 0, 0, 0]) 5000 (by decide) ?_
      (by decide) (by decide)⟩
  intro i h0 h1 hfree
  have h4 : (heap_of_list 0x01000000 [0x41, 0, 0, 0]).table.total = 4 := rfl
  rw [h4] at h1
  have : i = 0 ∨ i = 1 ∨ i = 2 ∨ i = 3 := by omega
  rcases this with rfl | rfl | rfl | rfl
  · exact absurd hfree (by decide)
  · rfl
  · rfl
  · rfl

/-! ## Returned addresses -/

/-- C6, as stated, fails: `top_of_memory_heap` is built by `heap_create`, which
accepts the pool, and two allocations; its `saddr` `0xFFFFF000` is
block-aligned and its table reads `[0x41, 0x41, 0x00]`.  The next
`heap_malloc(heap, 1)` returns the non-null address `0x1000` (block 2, the sum
`0xFFFFF000 + 2 * 4096` reduced modulo `2^32`), which lies below `saddr` and is
not `saddr + s * block_size` for any block index `s`. -/
theorem heap_malloc_address_wraps :
    (heap_create (heap_of_list 0 []) 0xFFFFF000 0x2000 (table_of_list [7, 7, 7])).1 = 0 ∧
    top_of_memory_heap.saddr = 0xFFFFF000 ∧
    top_of_memory_heap.table.total = 3 ∧
    top_of_memory_heap.dump 3 = [0x41, 0x41, 0x00] ∧
    top_of_memory_heap.saddr % PEACHOS_HEAP_BLOCK_SIZE = 0 ∧
    (heap_malloc top_of_memory_heap 1).1 = 0x1000 ∧
    (heap_malloc top_of_memory_heap 1).1 ≠ 0 ∧
    (heap_malloc top_of_memory_heap 1).1 < top_of_memory_heap.saddr ∧
    ∀ s : Nat, (heap_malloc top_of_memory_heap 1).1 ≠
      top_of_memory_heap.saddr + s * PEACHOS_HEAP_BLOCK_SIZE := by
  refine ⟨by decide, by decide, by decide, by decide, by decide, by decide, by decide,
    by decide, ?_⟩
  intro s
  have h1 : (heap_malloc top_of_memory_heap 1).1 = 0x1000 := by decide
  have h2 : top_of_memory_heap.saddr = 0xFFFFF000 := by decide
  rw [h1, h2]
  omega

/-- C6 (amended): for every heap whose `saddr` is a multiple of the block size,
every non-null address returned by `heap_malloc` is block-aligned and equals
`saddr + s * block_size`, reduced modulo `2^32`, for some block index `s` with
`0 ≤ s < table.total`; when the pool ends inside the 32-bit address space
(`saddr + total * block_size ≤ 2^32`) the address equals `saddr + s * block_size`
and hence lies in `[saddr, saddr + total * block_size)`. -/
theorem heap_malloc_address_in_pool (h : heap) (size : Nat)
    (hal : h.saddr % PEACHOS_HEAP_BLOCK_SIZE = 0)
    (hp : (heap_malloc h size).1 ≠ 0) :
    ∃ s : Nat, s < h.table.total ∧
      (heap_malloc h size).1 = (h.saddr + s * PEACHOS_HEAP_BLOCK_SIZE) % 4294967296 ∧
      (heap_malloc h size).1 % PEACHOS_HEAP_BLOCK_SIZE = 0 ∧
      (h.saddr + h.table.total * PEACHOS_HEAP_BLOCK_SIZE ≤ 4294967296 →
        (heap_malloc h size).1 = h.saddr + s * PEACHOS_HEAP_BLOCK_SIZE ∧
        h.saddr ≤ (heap_malloc h size).1 ∧
        (heap_malloc h size).1 < h.saddr + h.table.total * PEACHOS_HEAP_BLOCK_SIZE) := by
  simp only [heap_malloc] at hp ⊢
  rcases heap_malloc_blocks_cases h
      (heap_align_value_to_upper (to_uint (size : Int)) / PEACHOS_HEAP_BLOCK_SIZE)
    with hl | ⟨s, hs1, hs2, _, _⟩
  · rw [hl] at hp; exact absurd rfl hp
  · rw [hs1]
    simp only []
    rw [heap_block_to_address_eq]
    simp only [PEACHOS_HEAP_BLOCK_SIZE] at hal ⊢
    refine ⟨s, hs2, rfl, by omega, ?_⟩
    intro hfit
    have : (h.saddr + s * 4096) % 4294967296 = h.saddr + s * 4096 := by
      apply Nat.mod_eq_of_lt
      omega
    rw [this]
    omega

/-- C6 (amended) at a concrete input: one byte requested from a four-block heap
at `0x01000000` whose first block is in use. -/
theorem heap_malloc_address_in_pool_witness :
    ∃ s : Nat, s < (heap_of_list 0x01000000 [0x41, 0, 0, 0]).table.total ∧
      (heap_malloc (heap_of_list 0x01000000 [0x41, 0, 0, 0]) 1).1 =
        ((heap_of_list 0x01000000 [0x41, 0, 0, 0]).saddr + s * PEACHOS_HEAP_BLOCK_SIZE)
          % 4294967296 ∧
      (heap_malloc (heap_of_list 0x01000000 [0x41, 0, 0, 0]) 1).1 % PEACHOS_HEAP_BLOCK_SIZE = 0 ∧
      ((heap_of_list 0x01000000 [0x41, 0, 0, 0]).saddr +
          (heap_of_list 0x01000000 [0x41, 0, 0, 0]).table.total * PEACHOS_HEAP_BLOCK_SIZE
          ≤ 4294967296 →
        (heap_malloc (heap_of_list 0x01000000 [0x41, 0, 0, 0]) 1).1 =
          (heap_of_list 0x01000000 [0x41, 0, 0, 0]).saddr + s * PEACHOS_HEAP_BLOCK_SIZE ∧
        (heap_of_list 0x01000000 [0x41, 0, 0, 0]).saddr ≤
          (heap_malloc (heap_of_list 0x01000000 [0x41, 0, 0, 0]) 1).1 ∧
        (heap_malloc (heap_of_list 0x01000000 [0x41, 0, 0, 0]) 1).1 <
          (heap_of_list 0x01000000 [0x41, 0, 0, 0]).saddr +
            (heap_of_list 0x01000000 [0x41, 0, 0, 0]).table.total * PEACHOS_HEAP_BLOCK_SIZE) :=
  heap_malloc_address_in_pool (heap_of_list 0x01000000 [0x41, 0, 0, 0]) 1 (by decide) (by decide)
/-! ## Rounding is idempotent -/

/-- C15: for every 32-bit unsigned `val`, also within one block of `2^32` where
the addition wraps, `heap_align_value_to_upper val` is a multiple of the block
size and rounding it again leaves it unchanged. -/
theorem heap_align_value_to_upper_idempotent (val : Nat) (_hval : val < 4294967296) :
    heap_align_value_to_upper val % PEACHOS_HEAP_BLOCK_SIZE = 0 ∧
    heap_align_value_to_upper (heap_align_value_to_upper val) =
      heap_align_value_to_upper val := by
  have hm : heap_align_value_to_upper val % PEACHOS_HEAP_BLOCK_SIZE = 0 := by
    simp only [heap_align_value_to_upper, PEACHOS_HEAP_BLOCK_SIZE]
    split_ifs with h0
    · exact h0
    · omega
  refine ⟨hm, ?_⟩
  generalize heap_align_value_to_upper val = w at hm
  simp only [heap_align_value_to_upper]
  rw [if_pos hm]

/-- C15 at concrete inputs: 5000 is rounded to 8192, and `0xFFFFFFFF`, where the
addition wraps, to 0; both results are fixed points. -/
theorem heap_align_value_to_upper_idempotent_witness :
    heap_align_value_to_upper 5000 = 8192 ∧
    heap_align_value_to_upper 4294967295 = 0 ∧
    heap_align_value_to_upper (heap_align_value_to_upper 4294967295) =
      heap_align_value_to_upper 4294967295 :=
  ⟨by decide, by decide, (heap_align_value_to_upper_idempotent 4294967295 (by decide)).2⟩

/-! ## Entry decoding -/

set_option maxRecDepth 100000 in
/-- The decoding facts, checked on each of the 256 byte values. -/
theorem heap_get_entry_type_bytes : ∀ x : Nat, x < 256 →
    (heap_get_entry_type x = x &&& 0x0F ∧
    heap_get_entry_type x = x % 16 ∧
    heap_get_entry_type (x ||| HEAP_BLOCK_HAS_NEXT) = heap_get_entry_type x ∧
    heap_get_entry_type (x ||| HEAP_BLOCK_IS_FIRST) = heap_get_entry_type x ∧
    heap_get_entry_type (x ||| HEAP_BLOCK_HAS_NEXT ||| HEAP_BLOCK_IS_FIRST) =
      heap_get_entry_type x ∧
    heap_get_entry_type (x &&& (0xFF ^^^ HEAP_BLOCK_HAS_NEXT)) = heap_get_entry_type x ∧
    heap_get_entry_type (x &&& (0xFF ^^^ HEAP_BLOCK_IS_FIRST)) = heap_get_entry_type x ∧
    heap_get_entry_type (x &&& (0xFF ^^^ (HEAP_BLOCK_HAS_NEXT ||| HEAP_BLOCK_IS_FIRST))) =
      heap_get_entry_type x) := by
  decide

/-- C19: for every entry byte `e`, `heap_get_entry_type e` is `e & 0x0F` (the
value of the low nibble, `e % 16`); setting or clearing HAS_NEXT (0x80) and/or
IS_FIRST (0x40) in `e` never changes `heap_get_entry_type e`; and HAS_NEXT,
IS_FIRST and the type nibble occupy pairwise disjoint bits. -/
theorem heap_get_entry_type_flags (e : Nat) (he : e < 256) :
    heap_get_entry_type e = e &&& 0x0F ∧
    heap_get_entry_type e = e % 16 ∧
    heap_get_entry_type (e ||| HEAP_BLOCK_HAS_NEXT) = heap_get_entry_type e ∧
    heap_get_entry_type (e ||| HEAP_BLOCK_IS_FIRST) = heap_get_entry_type e ∧
    heap_get_entry_type (e ||| HEAP_BLOCK_HAS_NEXT ||| HEAP_BLOCK_IS_FIRST) =
      heap_get_entry_type e ∧
    heap_get_entry_type (e &&& (0xFF ^^^ HEAP_BLOCK_HAS_NEXT)) = heap_get_entry_type e ∧
    heap_get_entry_type (e &&& (0xFF ^^^ HEAP_BLOCK_IS_FIRST)) = heap_get_entry_type e ∧
    heap_get_entry_type (e &&& (0xFF ^^^ (HEAP_BLOCK_HAS_NEXT ||| HEAP_BLOCK_IS_FIRST))) =
      heap_get_entry_type e ∧
    HEAP_BLOCK_HAS_NEXT &&& HEAP_BLOCK_IS_FIRST = 0 ∧
    HEAP_BLOCK_HAS_NEXT &&& 0x0F = 0 ∧
    HEAP_BLOCK_IS_FIRST &&& 0x0F = 0 := by
  obtain ⟨h1, h2, h3, h4, h5, h6, h7, h8⟩ := heap_get_entry_type_bytes e he
  exact ⟨h1, h2, h3, h4, h5, h6, h7, h8, by decide, by decide, by decide⟩

/-- C19 at a concrete input: the first entry of a multi-block allocation. -/
theorem heap_get_entry_type_flags_witness :
    heap_get_entry_type 0xC1 = 0xC1 &&& 0x0F ∧ heap_get_entry_type 0xC1 = 1 ∧
    heap_get_entry_type (0xC1 &&& (0xFF ^^^ HEAP_BLOCK_HAS_NEXT)) = heap_get_entry_type 0xC1 :=
  ⟨(heap_get_entry_type_flags 0xC1 (by decide)).1, by decide,
   (heap_get_entry_type_flags 0xC1 (by decide)).2.2.2.2.2.1⟩

/-! ## Address round trip -/

/-- C12, as stated, fails: block 524288 is a valid block index of
`far_block_heap`, a heap of a shape that `heap_create` accepts; the `int`
product `524288 * 4096` wraps to `-2^31`, the address of the block is
`0x80001000`, and the pointer difference cast to `int` is `-2^31`, which the
truncating division turns into the block index `-524288`. -/
theorem heap_address_round_trip_far_block :
    (heap_create (heap_of_list 0 []) 0x1000 0x80002000 far_block_heap.table).1 = 0 ∧
    (524288 : Int) < (far_block_heap.table.total : Int) ∧
    to_int (524288 * (PEACHOS_HEAP_BLOCK_SIZE : Int)) = -2147483648 ∧
    heap_block_to_address far_block_heap 524288 = 0x80001000 ∧
    to_int ((0x80001000 : Int) - (far_block_heap.saddr : Int)) = -2147483648 ∧
    heap_address_to_block far_block_heap (heap_block_to_address far_block_heap 524288)
      = -524288 ∧
    heap_address_to_block far_block_heap (heap_block_to_address far_block_heap 524288)
      ≠ 524288 := by
  decide

/-- C12 (amended): for every heap and every valid block index `n`
(`0 ≤ n < table.total`) below `2^19`, so that the byte offset `n * block_size`
fits in an `int`, `heap_address_to_block(heap, heap_block_to_address(heap, n))`
is `n`, with the C arithmetic as written (`int` multiplication by the block
size, 32-bit pointer addition, pointer difference cast to `int`, truncating
division). -/
theorem heap_address_round_trip (h : heap) (n : Int) (h0 : 0 ≤ n)
    (_hn : n < (h.table.total : Int)) (hfit : n < 524288) :
    heap_address_to_block h (heap_block_to_address h n) = n := by
  have hnat : n = ((n.toNat : Nat) : Int) := by omega
  rw [hnat]
  exact heap_address_to_block_of_block h n.toNat (by omega)

/-- C12 (amended) at a concrete input: block 3 of a four-block pool at
`0x01000000`. -/
theorem heap_address_round_trip_witness :
    heap_block_to_address (heap_of_list 0x01000000 [0, 0, 0, 0]) 3 = 0x01003000 ∧
    heap_address_to_block (heap_of_list 0x01000000 [0, 0, 0, 0])
      (heap_block_to_address (heap_of_list 0x01000000 [0, 0, 0, 0]) 3) = 3 :=
  ⟨by decide,
   heap_address_round_trip (heap_of_list 0x01000000 [0, 0, 0, 0]) 3 (by decide) (by decide)
    (by decide)⟩

/-! ## What an allocation changes -/

/-- The number of blocks `heap_malloc` asks for: the size divided by the block
size, rounded up, as long as the rounded size fits in 32 bits. -/
theorem heap_malloc_total_blocks (size : Nat) (h1 : size ≤ 4294967296 - PEACHOS_HEAP_BLOCK_SIZE) :
    heap_align_value_to_upper (to_uint (size : Int)) / PEACHOS_HEAP_BLOCK_SIZE =
      (size + PEACHOS_HEAP_BLOCK_SIZE - 1) / PEACHOS_HEAP_BLOCK_SIZE := by
  simp only [PEACHOS_HEAP_BLOCK_SIZE] at h1 ⊢
  rw [to_uint_natCast size (by omega)]
  simp only [heap_align_value_to_upper, PEACHOS_HEAP_BLOCK_SIZE]
  split_ifs with h0 <;> omega

/-- The frame of an allocation: `heap_malloc` writes the entries of one index
range `s .. s+k-1` (empty when nothing is allocated) and no other, and every
entry of the table in this range had type FREE. -/
theorem heap_malloc_blocks_frame (h : heap) (k : Nat) :
    ∃ s n : Nat,
      (∀ i : Int, ¬ ((s : Int) ≤ i ∧ i < (s : Int) + (n : Int)) →
        (heap_malloc_blocks h k).2.table.entries i = h.table.entries i) ∧
      (∀ i : Int, (s : Int) ≤ i → i < (s : Int) + (n : Int) → i < (h.table.total : Int) →
        is_free h.table.entries i) := by
  rcases heap_malloc_blocks_cases h k with hl | ⟨s, hs1, hs2, hs3, hs4⟩
  · refine ⟨0, 0, ?_, ?_⟩
    · intro i _; rw [hl]
    · intro i h0 h1 _; omega
  · refine ⟨s, k, ?_, ?_⟩
    · intro i hi
      rw [hs1]
      by_cases hk : k = 0
      · subst hk
        rw [Nat.cast_zero, heap_mark_blocks_taken_zero]
      · rw [heap_mark_blocks_taken_entries h s k (by omega), if_neg (by omega), if_neg (by omega)]
    · intro i h0 h1 h2
      have hnat : i = ((i.toNat : Nat) : Int) := by omega
      have := hs4 i.toNat (by omega) (by omega) (by omega)
      rw [← hnat] at this
      exact this

/-- C11: for every size with `0 < size ≤ 2^32 - block_size` and every table that
contains a free run of `ceil(size / block_size)` blocks, `heap_malloc(heap,
size)` changes exactly `ceil(size / block_size)` entries, the run `s .. s+k-1`
it returns the address of, from type FREE to type TAKEN and no others. -/
theorem heap_malloc_block_count (h : heap) (size : Nat) (h0 : 0 < size)
    (h1 : size ≤ 4294967296 - PEACHOS_HEAP_BLOCK_SIZE)
    (hex : ∃ s : Nat,
      s + (size + PEACHOS_HEAP_BLOCK_SIZE - 1) / PEACHOS_HEAP_BLOCK_SIZE ≤ h.table.total ∧
      free_run h.table.entries s ((size + PEACHOS_HEAP_BLOCK_SIZE - 1) / PEACHOS_HEAP_BLOCK_SIZE)) :
    size ≤ (size + PEACHOS_HEAP_BLOCK_SIZE - 1) / PEACHOS_HEAP_BLOCK_SIZE * PEACHOS_HEAP_BLOCK_SIZE ∧
    (size + PEACHOS_HEAP_BLOCK_SIZE - 1) / PEACHOS_HEAP_BLOCK_SIZE * PEACHOS_HEAP_BLOCK_SIZE
      < size + PEACHOS_HEAP_BLOCK_SIZE ∧
    ∃ s : Nat,
      s + (size + PEACHOS_HEAP_BLOCK_SIZE - 1) / PEACHOS_HEAP_BLOCK_SIZE ≤ h.table.total ∧
      (heap_malloc h size).1 = heap_block_to_address h (s : Int) ∧
      (∀ i : Int, (s : Int) ≤ i →
        i < (s : Int) + (((size + PEACHOS_HEAP_BLOCK_SIZE - 1) / PEACHOS_HEAP_BLOCK_SIZE : Nat) : Int) →
        heap_get_entry_type (h.table.entries i) = HEAP_BLOCK_TABLE_ENTRY_FREE ∧
        heap_get_entry_type ((heap_malloc h size).2.table.entries i) =
          HEAP_BLOCK_TABLE_ENTRY_TAKEN) ∧
      (∀ i : Int, ¬ ((s : Int) ≤ i ∧
        i < (s : Int) + (((size + PEACHOS_HEAP_BLOCK_SIZE - 1) / PEACHOS_HEAP_BLOCK_SIZE : Nat) : Int)) →
        (heap_malloc h size).2.table.entries i = h.table.entries i) ∧
      (heap_malloc h size).2.table.total = h.table.total := by
  have hk := heap_malloc_total_blocks size h1
  simp only [heap_malloc]
  rw [hk]
  generalize hkdef : (size + PEACHOS_HEAP_BLOCK_SIZE - 1) / PEACHOS_HEAP_BLOCK_SIZE = k at hex ⊢
  have hk1 : 1 ≤ k := by
    rw [← hkdef]; simp only [PEACHOS_HEAP_BLOCK_SIZE]; omega
  refine ⟨by rw [← hkdef]; simp only [PEACHOS_HEAP_BLOCK_SIZE]; omega,
    by rw [← hkdef]; simp only [PEACHOS_HEAP_BLOCK_SIZE]; omega, ?_⟩
  obtain ⟨s, hs1, hs2, hs3, _⟩ := heap_get_start_block_min h k hk1 hex
  have hm : heap_malloc_blocks h k =
      (heap_block_to_address h (s : Int), heap_mark_blocks_taken h (s : Int) (k : Int)) := by
    simp only [heap_malloc_blocks, hs1]
    rw [if_neg (by omega)]
  rw [hm]
  refine ⟨s, hs2, ?_, ?_, ?_, ?_⟩
  · simp only []
  · intro i hi1 hi2
    have hnat : i = (((s + (i - s).toNat : Nat)) : Int) := by omega
    have hfree := hs3 (i - s).toNat (by omega)
    rw [← hnat] at hfree
    refine ⟨hfree, ?_⟩
    simp only []
    rw [heap_mark_blocks_taken_entries h s k (by omega)]
    split_ifs <;> first | decide | omega
  · intro i hi
    simp only []
    rw [heap_mark_blocks_taken_entries h s k (by omega), if_neg (by omega), if_neg (by omega)]
  · exact heap_mark_blocks_taken_total h s k

/-- C11 at a concrete input: with 4096-byte blocks a request for 5000 bytes
takes two blocks. -/
theorem heap_malloc_block_count_witness :
    (5000 + PEACHOS_HEAP_BLOCK_SIZE - 1) / PEACHOS_HEAP_BLOCK_SIZE = 2 ∧
    (heap_malloc (heap_of_list 0x01000000 [0x41, 0, 0, 0]) 5000).2.dump 4 =
      [0x41, 0xC1, 0x01, 0] ∧
    ∃ s : Nat,
      s + (5000 + PEACHOS_HEAP_BLOCK_SIZE - 1) / PEACHOS_HEAP_BLOCK_SIZE ≤
        (heap_of_list 0x01000000 [0x41, 0, 0, 0]).table.total ∧
      (heap_malloc (heap_of_list 0x01000000 [0x41, 0, 0, 0]) 5000).1 =
        heap_block_to_address (heap_of_list 0x01000000 [0x41, 0, 0, 0]) (s : Int) ∧
      (∀ i : Int, (s : Int) ≤ i →
        i < (s : Int) + (((5000 + PEACHOS_HEAP_BLOCK_SIZE - 1) / PEACHOS_HEAP_BLOCK_SIZE : Nat) : Int) →
        heap_get_entry_type ((heap_of_list 0x01000000 [0x41, 0, 0, 0]).table.entries i) =
          HEAP_BLOCK_TABLE_ENTRY_FREE ∧
        heap_get_entry_type
          ((heap_malloc (heap_of_list 0x01000000 [0x41, 0, 0, 0]) 5000).2.table.entries i) =
          HEAP_BLOCK_TABLE_ENTRY_TAKEN) ∧
      (∀ i : Int, ¬ ((s : Int) ≤ i ∧
        i < (s : Int) + (((5000 + PEACHOS_HEAP_BLOCK_SIZE - 1) / PEACHOS_HEAP_BLOCK_SIZE : Nat) : Int)) →
        (heap_malloc (heap_of_list 0x01000000 [0x41, 0, 0, 0]) 5000).2.table.entries i =
          (heap_of_list 0x01000000 [0x41, 0, 0, 0]).table.entries i) ∧
      (heap_malloc (heap_of_list 0x01000000 [0x41, 0, 0, 0]) 5000).2.table.total =
        (heap_of_list 0x01000000 [0x41, 0, 0, 0]).table.total :=
  ⟨by decide, by decide,
   (heap_malloc_block_count (heap_of_list 0x01000000 [0x41, 0, 0, 0]) 5000 (by decide) (by decide)
    ⟨1, by decide, by decide⟩).2.2⟩

/-- C16: for every table and every size, `heap_malloc` never modifies a table
entry whose type was TAKEN (or anything but FREE) before the call; the entries
it writes form one index range and every entry of the table in this range had
type FREE, so a new allocation never shares a block with an existing one. -/
theorem heap_malloc_no_overlap (h : heap) (size : Nat) :
    (∀ i : Int, 0 ≤ i → i < (h.table.total : Int) →
      heap_get_entry_type (h.table.entries i) = HEAP_BLOCK_TABLE_ENTRY_TAKEN →
      (heap_malloc h size).2.table.entries i = h.table.entries i) ∧
    (∀ i : Int, 0 ≤ i → i < (h.table.total : Int) →
      (heap_malloc h size).2.table.entries i ≠ h.table.entries i →
      heap_get_entry_type (h.table.entries i) = HEAP_BLOCK_TABLE_ENTRY_FREE) ∧
    (∃ s n : Nat,
      (∀ i : Int, ¬ ((s : Int) ≤ i ∧ i < (s : Int) + (n : Int)) →
        (heap_malloc h size).2.table.entries i = h.table.entries i) ∧
      (∀ i : Int, (s : Int) ≤ i → i < (s : Int) + (n : Int) → i < (h.table.total : Int) →
        heap_get_entry_type (h.table.entries i) = HEAP_BLOCK_TABLE_ENTRY_FREE)) := by
  simp only [heap_malloc]
  obtain ⟨s, n, hframe, hfree⟩ := heap_malloc_blocks_frame h
    (heap_align_value_to_upper (to_uint (size : Int)) / PEACHOS_HEAP_BLOCK_SIZE)
  have hmod : ∀ i : Int, 0 ≤ i → i < (h.table.total : Int) →
      (heap_malloc_blocks h
        (heap_align_value_to_upper (to_uint (size : Int)) / PEACHOS_HEAP_BLOCK_SIZE)).2.table.entries i
        ≠ h.table.entries i →
      heap_get_entry_type (h.table.entries i) = HEAP_BLOCK_TABLE_ENTRY_FREE := by
    intro i _ hi1 hne
    by_cases hin : (s : Int) ≤ i ∧ i < (s : Int) + (n : Int)
    · exact hfree i hin.1 hin.2 hi1
    · exact absurd (hframe i hin) hne
  refine ⟨?_, hmod, ⟨s, n, hframe, hfree⟩⟩
  intro i hi0 hi1 htaken
  by_contra hne
  have := hmod i hi0 hi1 hne
  rw [htaken] at this
  exact absurd this (by decide)

/-- C16 at a concrete input: two blocks are allocated next to a block in use,
whose entry keeps its byte. -/
theorem heap_malloc_no_overlap_witness :
    (heap_malloc (heap_of_list 0x01000000 [0x41, 0, 0, 0]) 5000).2.dump 4 =
      [0x41, 0xC1, 0x01, 0] ∧
    (heap_malloc (heap_of_list 0x01000000 [0x41, 0, 0, 0]) 5000).2.table.entries 0 =
      (heap_of_list 0x01000000 [0x41, 0, 0, 0]).table.entries 0 :=
  ⟨by decide,
   (heap_malloc_no_overlap (heap_of_list 0x01000000 [0x41, 0, 0, 0]) 5000).1 0 (by decide)
    (by decide) (by decide)⟩

/-! ## The release walk on an arbitrary table -/

/-- The release loop modifies no entry below its start. -/
theorem heap_mark_blocks_free_loop_below :
    ∀ (n : Nat) (i : Int) (entries : Int → Nat) (x : Int), x < i →
      heap_mark_blocks_free_loop n i entries x = entries x := by
  intro n
  induction n with
  | zero => intro i entries x _; rfl
  | succ n ih =>
    intro i entries x hx
    simp only [heap_mark_blocks_free_loop]
    split_ifs
    · rw [Function.update_noteq (by omega)]
    · rw [ih (i + 1) _ x (by omega), Function.update_noteq (by omega)]

/-- The release loop modifies no entry at or above its bound. -/
theorem heap_mark_blocks_free_loop_above :
    ∀ (n : Nat) (i : Int) (entries : Int → Nat) (x : Int), i + (n : Int) ≤ x →
      heap_mark_blocks_free_loop n i entries x = entries x := by
  intro n
  induction n with
  | zero => intro i entries x _; rfl
  | succ n ih =>
    intro i entries x hx
    simp only [heap_mark_blocks_free_loop]
    split_ifs
    · rw [Function.update_noteq (by omega)]
    · rw [ih (i + 1) _ x (by omega), Function.update_noteq (by omega)]

/-- The entry at which the release loop starts is cleared. -/
theorem heap_mark_blocks_free_loop_start (n : Nat) (i : Int) (entries : Int → Nat) :
    heap_mark_blocks_free_loop (n + 1) i entries i = HEAP_BLOCK_TABLE_ENTRY_FREE := by
  simp only [heap_mark_blocks_free_loop]
  split_ifs
  · simp
  · rw [heap_mark_blocks_free_loop_below n (i + 1) _ i (by omega)]
    simp

/-- The release loop started on an entry that is the zero byte changes nothing. -/
theorem heap_mark_blocks_free_loop_of_zero (n : Nat) (i : Int) (entries : Int → Nat)
    (hz : entries i = 0x00) : heap_mark_blocks_free_loop n i entries = entries := by
  cases n with
  | zero => rfl
  | succ n =>
    simp only [heap_mark_blocks_free_loop]
    rw [hz, if_pos (by decide)]
    funext x
    by_cases hx : x = i
    · subst hx; simp [hz, HEAP_BLOCK_TABLE_ENTRY_FREE]
    · rw [Function.update_noteq hx]

/-- The release loop reads only the entries between its start and its bound:
on two memories that agree there it makes the same entries zero. -/
theorem heap_mark_blocks_free_loop_reads :
    ∀ (n : Nat) (i : Int) (e1 e2 : Int → Nat),
      (∀ x : Int, i ≤ x → x < i + (n : Int) → e1 x = e2 x) →
      ∀ x : Int, i ≤ x → x < i + (n : Int) →
        heap_mark_blocks_free_loop n i e1 x = heap_mark_blocks_free_loop n i e2 x := by
  intro n
  induction n with
  | zero => intro i e1 e2 _ x h1 h2; omega
  | succ n ih =>
    intro i e1 e2 hagree x h1 h2
    simp only [heap_mark_blocks_free_loop]
    have hi : e1 i = e2 i := hagree i (le_refl _) (by omega)
    rw [hi]
    have hupd : ∀ y : Int, i ≤ y → y < i + ((n + 1 : Nat) : Int) →
        Function.update e1 i HEAP_BLOCK_TABLE_ENTRY_FREE y =
          Function.update e2 i HEAP_BLOCK_TABLE_ENTRY_FREE y := by
      intro y hy1 hy2
      by_cases hy : y = i
      · subst hy; simp
      · rw [Function.update_noteq hy, Function.update_noteq hy]
        exact hagree y hy1 hy2
    split_ifs
    · exact hupd x h1 h2
    · by_cases hx : x = i
      · subst hx
        rw [heap_mark_blocks_free_loop_below n (x + 1) _ x (by omega),
          heap_mark_blocks_free_loop_below n (x + 1) _ x (by omega)]
        exact hupd x h1 h2
      · exact ih (i + 1) _ _ (fun y hy1 hy2 => hupd y (by omega) (by push_cast; omega)) x
          (by omega) (by push_cast at h2; omega)

/-- C17: for every table, whatever its contents, and every starting block `b`
with `0 ≤ b < table.total`, applying `heap_mark_blocks_free(heap, b)` twice
yields the same heap as applying it once; freeing a block whose entry is already
0x00 (a double free) changes nothing; the walk modifies no entry at an index
below `b` and none at an index `≥ table.total`, and it reads no index
`≥ table.total` (nor below `b`): on two tables that agree on the entries
`b .. total-1` it produces the same entries there. -/
theorem heap_mark_blocks_free_idempotent (h : heap) (b : Int) (_hb0 : 0 ≤ b)
    (hb1 : b < (h.table.total : Int)) :
    heap_mark_blocks_free (heap_mark_blocks_free h b) b = heap_mark_blocks_free h b ∧
    (heap_mark_blocks_free h b).table.entries b = 0x00 ∧
    (h.table.entries b = 0x00 → heap_mark_blocks_free h b = h) ∧
    (∀ x : Int, x < b → (heap_mark_blocks_free h b).table.entries x = h.table.entries x) ∧
    (∀ x : Int, (h.table.total : Int) ≤ x →
      (heap_mark_blocks_free h b).table.entries x = h.table.entries x) ∧
    (∀ h2 : heap, h2.table.total = h.table.total →
      (∀ x : Int, b ≤ x → x < (h.table.total : Int) → h2.table.entries x = h.table.entries x) →
      ∀ x : Int, b ≤ x → x < (h.table.total : Int) →
        (heap_mark_blocks_free h2 b).table.entries x =
          (heap_mark_blocks_free h b).table.entries x) := by
  obtain ⟨n, hn⟩ : ∃ n : Nat, ((h.table.total : Int) - b).toNat = n + 1 :=
    ⟨((h.table.total : Int) - b).toNat - 1, by omega⟩
  have hstart : (heap_mark_blocks_free h b).table.entries b = 0x00 := by
    simp only [heap_mark_blocks_free]
    rw [hn]
    exact heap_mark_blocks_free_loop_start n b _
  refine ⟨?_, hstart, ?_, ?_, ?_, ?_⟩
  · have := heap_mark_blocks_free_loop_of_zero
      (((heap_mark_blocks_free h b).table.total : Int) - b).toNat b
      (heap_mark_blocks_free h b).table.entries hstart
    show ({ heap_mark_blocks_free h b with table := { (heap_mark_blocks_free h b).table with
      entries := heap_mark_blocks_free_loop
        (((heap_mark_blocks_free h b).table.total : Int) - b).toNat b
        (heap_mark_blocks_free h b).table.entries } } : heap) = heap_mark_blocks_free h b
    rw [this]
  · intro hz
    have := heap_mark_blocks_free_loop_of_zero ((h.table.total : Int) - b).toNat b
      h.table.entries hz
    show ({ h with table := { h.table with
      entries := heap_mark_blocks_free_loop ((h.table.total : Int) - b).toNat b
        h.table.entries } } : heap) = h
    rw [this]
  · intro x hx
    exact heap_mark_blocks_free_loop_below _ b _ x hx
  · intro x hx
    exact heap_mark_blocks_free_loop_above _ b _ x (by omega)
  · intro h2 htot hagree x hx1 hx2
    simp only [heap_mark_blocks_free]
    rw [htot]
    exact heap_mark_blocks_free_loop_reads _ b _ _
      (fun y hy1 hy2 => hagree y hy1 (by omega)) x hx1 (by omega)

/-- C17 at a concrete input: the three-block run at blocks 1..3 is released
twice; the first release clears it, the second changes nothing. -/
theorem heap_mark_blocks_free_idempotent_witness :
    (heap_mark_blocks_free (heap_of_list 0x01000000 [0x41, 0xC1, 0x81, 0x01, 0x41]) 1).dump 5 =
      [0x41, 0, 0, 0, 0x41] ∧
    heap_mark_blocks_free
        (heap_mark_blocks_free (heap_of_list 0x01000000 [0x41, 0xC1, 0x81, 0x01, 0x41]) 1) 1 =
      heap_mark_blocks_free (heap_of_list 0x01000000 [0x41, 0xC1, 0x81, 0x01, 0x41]) 1 :=
  ⟨by decide,
   (heap_mark_blocks_free_idempotent (heap_of_list 0x01000000 [0x41, 0xC1, 0x81, 0x01, 0x41]) 1
    (by decide) (by decide)).1⟩

/-! ## Requests for zero blocks -/

/-- The scan for a request of zero blocks never leaves the loop early: it ends
with `-1` when the scanned part is empty or ends with an entry that is not FREE,
and with the start of the free run that ends the scanned part otherwise. -/
theorem heap_get_start_block_loop_zero (entries : Int → Nat) :
    ∀ (n i c : Nat) (sb : Int),
      c ≤ i → (c = 0 → sb = -1) → (0 < c → sb = ((i - c : Nat) : Int)) →
      (∀ j : Nat, i - c ≤ j → j < i → is_free entries (j : Int)) →
      (i - c = 0 ∨ ¬ is_free entries ((i - c - 1 : Nat) : Int)) →
      (heap_get_start_block_loop entries 0 n i (c : Int) sb = -1 ∧
        (i + n = 0 ∨ ¬ is_free entries ((i + n - 1 : Nat) : Int))) ∨
      ∃ s : Nat, heap_get_start_block_loop entries 0 n i (c : Int) sb = (s : Int) ∧
        s < i + n ∧ (∀ j : Nat, s ≤ j → j < i + n → is_free entries (j : Int)) ∧
        (s = 0 ∨ ¬ is_free entries ((s - 1 : Nat) : Int)) := by
  intro n
  induction n with
  | zero =>
    intro i c sb hci h0 h1 hfree hbound
    simp only [heap_get_start_block_loop]
    by_cases hc : c = 0
    · left
      subst hc
      exact ⟨h0 rfl, by simpa using hbound⟩
    · right
      exact ⟨i - c, h1 (by omega), by omega, fun j a b => hfree j a (by omega), hbound⟩
  | succ n ih =>
    intro i c sb hci h0 h1 hfree hbound
    simp only [heap_get_start_block_loop]
    by_cases hf : heap_get_entry_type (entries (i : Int)) = HEAP_BLOCK_TABLE_ENTRY_FREE
    · rw [if_neg (by simpa using hf)]
      have hsb : (if sb = -1 then (i : Int) else sb) = ((i - c : Nat) : Int) := by
        by_cases hc : c = 0
        · rw [h0 hc, if_pos rfl]; subst hc; simp
        · have := h1 (by omega)
          rw [if_neg (by omega), this]
      rw [hsb, if_neg (by omega)]
      have hcast : (c : Int) + 1 = ((c + 1 : Nat) : Int) := by push_cast; rfl
      rw [hcast]
      have hidx : i + 1 - (c + 1) = i - c := by omega
      have hfree2 : ∀ j : Nat, i - c ≤ j → j < i + 1 → is_free entries (j : Int) := by
        intro j hj1 hj2
        by_cases hji : j = i
        · subst hji; exact hf
        · exact hfree j hj1 (by omega)
      have := ih (i + 1) (c + 1) ((i - c : Nat) : Int) (by omega) (by omega)
        (by intro _; rw [hidx]) (by rw [hidx]; exact hfree2) (by rw [hidx]; exact hbound)
      have e1 : i + 1 + n = i + (n + 1) := by omega
      rw [e1] at this
      exact this
    · rw [if_pos (by simpa using hf)]
      have := ih (i + 1) 0 (-1) (by omega) (by intro _; rfl) (by intro hc; omega)
        (by intro j hj1 hj2; omega) (by right; simpa using hf)
      have e1 : i + 1 + n = i + (n + 1) := by omega
      rw [e1] at this
      exact this

/-- What `heap_get_start_block` returns for a request of zero blocks. -/
theorem heap_get_start_block_zero (h : heap) :
    (heap_get_start_block h 0 = -ENOMEM ∧
      (h.table.total = 0 ∨ ¬ is_free h.table.entries ((h.table.total - 1 : Nat) : Int))) ∨
    ∃ s : Nat, heap_get_start_block h 0 = (s : Int) ∧ s < h.table.total ∧
      (∀ j : Nat, s ≤ j → j < h.table.total → is_free h.table.entries (j : Int)) ∧
      (s = 0 ∨ ¬ is_free h.table.entries ((s - 1 : Nat) : Int)) := by
  have := heap_get_start_block_loop_zero h.table.entries h.table.total 0 0 (-1)
    (le_refl _) (fun _ => rfl) (by intro hc; omega) (by intro j _ hj; omega) (Or.inl rfl)
  simp only [Nat.cast_zero, Nat.zero_add] at this
  simp only [heap_get_start_block]
  rcases this with ⟨hl, hlast⟩ | ⟨s, hs1, hs2, hs3, hs4⟩
  · left
    rw [hl, if_pos rfl]
    exact ⟨rfl, hlast⟩
  · right
    rw [hs1, if_neg (by omega)]
    exact ⟨s, rfl, hs2, hs3, hs4⟩

/-- C18, as stated, fails: `zero_page_heap` is a freshly created one-block heap
whose pool starts at address 0; its last (only) entry is FREE, and
`heap_malloc(heap, 0)` returns the address of the first block of the trailing
free run, which is the null address. -/
theorem heap_malloc_zero_null_with_free_last_entry :
    (heap_create (heap_of_list 0 []) 0 0x1000 (table_of_list [7])).1 = 0 ∧
    zero_page_heap.saddr = 0 ∧
    zero_page_heap.table.total = 1 ∧
    is_free zero_page_heap.table.entries 0 ∧
    heap_get_start_block zero_page_heap 0 = 0 ∧
    heap_block_to_address zero_page_heap 0 = 0 ∧
    (heap_malloc zero_page_heap 0).1 = 0 := by
  decide

/-- C18 (amended): for every heap, `heap_malloc(heap, 0)` leaves the heap, and
so every table entry, unchanged and marks no block as taken.  The search fails
(`heap_get_start_block` returns `-ENOMEM`) if and only if the table does not end
with a FREE entry, and then the null address is returned; otherwise the result
is the address of the first block `s` of the trailing free run,
`saddr + s * block_size` reduced modulo `2^32`, which is not the null address
as long as `0 < saddr + s * block_size < 2^32`. -/
theorem heap_malloc_zero (h : heap) :
    (heap_malloc h 0).2 = h ∧
    (heap_get_start_block h 0 = -ENOMEM ↔
      (h.table.total = 0 ∨ ¬ is_free h.table.entries ((h.table.total - 1 : Nat) : Int))) ∧
    (heap_get_start_block h 0 = -ENOMEM → (heap_malloc h 0).1 = 0) ∧
    (heap_get_start_block h 0 ≠ -ENOMEM →
      ∃ s : Nat, s < h.table.total ∧
        (∀ j : Nat, s ≤ j → j < h.table.total → is_free h.table.entries (j : Int)) ∧
        (s = 0 ∨ ¬ is_free h.table.entries ((s - 1 : Nat) : Int)) ∧
        heap_get_start_block h 0 = (s : Int) ∧
        (heap_malloc h 0).1 = heap_block_to_address h (s : Int) ∧
        (heap_malloc h 0).1 = (h.saddr + s * PEACHOS_HEAP_BLOCK_SIZE) % 4294967296 ∧
        (0 < h.saddr + s * PEACHOS_HEAP_BLOCK_SIZE →
          h.saddr + s * PEACHOS_HEAP_BLOCK_SIZE < 4294967296 → (heap_malloc h 0).1 ≠ 0)) := by
  have hk : heap_align_value_to_upper (to_uint ((0 : Nat) : Int)) / PEACHOS_HEAP_BLOCK_SIZE = 0 := by
    decide
  have hm : heap_malloc h 0 = heap_malloc_blocks h 0 := by
    simp only [heap_malloc]
    rw [hk]
  rw [hm]
  rcases heap_get_start_block_zero h with ⟨hl, hlast⟩ | ⟨s, hs1, hs2, hs3, hs4⟩
  · have hmb : heap_malloc_blocks h 0 = (0, h) := by
      simp only [heap_malloc_blocks, hl]
      rw [if_pos (by decide)]
    rw [hmb]
    refine ⟨rfl, ⟨fun _ => hlast, fun _ => hl⟩, fun _ => rfl, fun hne => absurd hl hne⟩
  · have hmb : heap_malloc_blocks h 0 = (heap_block_to_address h (s : Int), h) := by
      simp only [heap_malloc_blocks, hs1]
      rw [if_neg (by omega), Nat.cast_zero, heap_mark_blocks_taken_zero]
    have hne : heap_get_start_block h 0 ≠ -ENOMEM := by
      rw [hs1]; simp only [ENOMEM]; omega
    rw [hmb]
    refine ⟨rfl, ⟨fun hc => absurd hc hne, ?_⟩, fun hc => absurd hc hne, fun _ => ?_⟩
    · intro hlast
      exfalso
      rcases hlast with h0 | hnf
      · omega
      · exact hnf (hs3 (h.table.total - 1) (by omega) (by omega))
    · simp only []
      refine ⟨s, hs2, hs3, hs4, hs1, rfl, heap_block_to_address_eq h s, ?_⟩
      intro hpos hlt
      rw [heap_block_to_address_eq, Nat.mod_eq_of_lt hlt]
      omega

/-! ## The chain invariant -/

/-- C13 is violated by the code: `overrun_heap` is reached from a successful
`heap_create` over a one-block pool by one `heap_malloc` call of 8192 bytes.
The call is not refused (it returns the address of block 0), and afterwards
entry 0, the last entry of the table, carries HAS_NEXT: its successor, index 1,
lies outside the table. -/
theorem heap_malloc_leaves_open_chain :
    (heap_create (heap_of_list 0 []) 0x01000000 0x01001000 (table_of_list [7])).1 = 0 ∧
    (heap_malloc
      (heap_create (heap_of_list 0 []) 0x01000000 0x01001000 (table_of_list [7])).2.1 8192).1
      = 0x01000000 ∧
    overrun_heap.table.total = 1 ∧
    overrun_heap.table.entries 0 = 0xC1 ∧
    overrun_heap.table.entries 0 &&& HEAP_BLOCK_HAS_NEXT ≠ 0 ∧
    ¬ ((0 : Int) + 1 < (overrun_heap.table.total : Int)) := by
  decide

/-! ## Freed neighbours -/

/-- Inside the marked range the bytes written by `heap_mark_blocks_taken` do not
depend on the table they are written to. -/
theorem heap_mark_blocks_taken_entries_range (h1 h2 : heap) (b k : Int) (hk : 1 ≤ k) (j : Int)
    (hj1 : b ≤ j) (hj2 : j < b + k) :
    (heap_mark_blocks_taken h1 b k).table.entries j =
      (heap_mark_blocks_taken h2 b k).table.entries j := by
  rw [heap_mark_blocks_taken_entries h1 b k hk, heap_mark_blocks_taken_entries h2 b k hk]
  by_cases hjb : j = b
  · simp only [if_pos hjb]
  · have hc : b < j ∧ j < b + k := ⟨by omega, hj2⟩
    simp only [if_neg hjb, if_pos hc]

/-- The table after `heap_free` of the address of block `b < 2^19`, when the
entries `b .. b+k-1` carry the chain of a `k`-block allocation. -/
theorem heap_free_block_entries (h : heap) (b k : Nat) (hk : 1 ≤ k)
    (hbk : b + k ≤ h.table.total) (hb : b < 524288)
    (hchain : ∀ j : Nat, j < k → h.table.entries ((b + j : Nat) : Int) =
      (heap_mark_blocks_taken h (b : Int) (k : Int)).table.entries ((b + j : Nat) : Int))
    (x : Int) :
    (heap_free h (heap_block_to_address h (b : Int))).table.entries x =
      if (b : Int) ≤ x ∧ x < (b : Int) + (k : Int) then HEAP_BLOCK_TABLE_ENTRY_FREE
      else h.table.entries x := by
  simp only [heap_free]
  rw [heap_address_to_block_of_block h b hb]
  exact heap_mark_blocks_free_chain h b k hk hbk hchain x

/-- The table after `heap_free` of two allocations that occupy disjoint runs
below block `2^19`. -/
theorem heap_free_two_entries (h : heap) (b1 k1 b2 k2 : Nat) (hk1 : 1 ≤ k1) (hk2 : 1 ≤ k2)
    (hin1 : b1 + k1 ≤ h.table.total) (hin2 : b2 + k2 ≤ h.table.total)
    (hfit1 : b1 < 524288) (hfit2 : b2 < 524288)
    (hdisj : b1 + k1 ≤ b2 ∨ b2 + k2 ≤ b1)
    (hc1 : ∀ j : Nat, j < k1 → h.table.entries ((b1 + j : Nat) : Int) =
      (heap_mark_blocks_taken h (b1 : Int) (k1 : Int)).table.entries ((b1 + j : Nat) : Int))
    (hc2 : ∀ j : Nat, j < k2 → h.table.entries ((b2 + j : Nat) : Int) =
      (heap_mark_blocks_taken h (b2 : Int) (k2 : Int)).table.entries ((b2 + j : Nat) : Int))
    (x : Int) :
    (heap_free (heap_free h (heap_block_to_address h (b1 : Int)))
        (heap_block_to_address h (b2 : Int))).table.entries x =
      if ((b1 : Int) ≤ x ∧ x < (b1 : Int) + (k1 : Int)) ∨
          ((b2 : Int) ≤ x ∧ x < (b2 : Int) + (k2 : Int)) then HEAP_BLOCK_TABLE_ENTRY_FREE
      else h.table.entries x := by
  have e1 := heap_free_block_entries h b1 k1 hk1 hin1 hfit1 hc1
  have haddr : heap_block_to_address h (b2 : Int) =
      heap_block_to_address (heap_free h (heap_block_to_address h (b1 : Int))) (b2 : Int) := rfl
  rw [haddr]
  rw [heap_free_block_entries (heap_free h (heap_block_to_address h (b1 : Int))) b2 k2 hk2
    hin2 hfit2 ?_ x]
  · rw [e1]
    split_ifs <;> first | rfl | omega
  · intro j hj
    rw [e1, if_neg (by omega), hc2 j hj]
    exact heap_mark_blocks_taken_entries_range _ _ _ _ (by omega) _ (by omega) (by omega)

/-- After the two runs `s .. s+a-1` and `s+a .. s+a+b-1` of a heap have become
FREE, a request for `a + b` blocks is served at or before block `s`. -/
theorem heap_get_start_block_merged (h : heap) (s a b : Nat) (ha : 1 ≤ a)
    (hin : s + a + b ≤ h.table.total)
    (hzero : ∀ x : Int, (s : Int) ≤ x → x < (s : Int) + (a : Int) + (b : Int) →
      h.table.entries x = HEAP_BLOCK_TABLE_ENTRY_FREE) :
    ∃ r : Nat, heap_get_start_block h (a + b) = (r : Int) ∧ r ≤ s ∧
      r + (a + b) ≤ h.table.total ∧ free_run h.table.entries r (a + b) ∧
      (heap_malloc_blocks h (a + b)).1 = heap_block_to_address h (r : Int) := by
  have hrun : free_run h.table.entries s (a + b) := by
    intro j hj
    unfold is_free
    rw [hzero _ (by omega) (by omega)]
    decide
  obtain ⟨r, hr1, hr2, hr3, hr4⟩ :=
    heap_get_start_block_min h (a + b) (by omega) ⟨s, by omega, hrun⟩
  refine ⟨r, hr1, ?_, hr2, hr3, ?_⟩
  · by_contra hlt
    exact hr4 s (by omega) hrun
  · simp only [heap_malloc_blocks, hr1]
    rw [if_neg (by omega)]

/-- The address of block 0 is the pool start. -/
theorem heap_block_to_address_zero (h : heap) :
    heap_block_to_address h ((0 : Nat) : Int) = h.saddr % 4294967296 := by
  rw [heap_block_to_address_eq]
  simp

/-- The request for `a + b` blocks after the two adjacent runs at `s` and
`s + a` have been freed, in the order given by the two addresses. -/
theorem heap_free_two_then_request (h : heap) (s a b : Nat) (ha : 1 ≤ a)
    (hin : s + a + b ≤ h.table.total) (p q : Nat)
    (hentries : ∀ x : Int, (heap_free (heap_free h p) q).table.entries x =
      if ((s : Int) ≤ x ∧ x < (s : Int) + (a : Int)) ∨
          (((s + a : Nat) : Int) ≤ x ∧ x < ((s + a : Nat) : Int) + (b : Int))
      then HEAP_BLOCK_TABLE_ENTRY_FREE else h.table.entries x) :
    ∃ r : Nat, heap_get_start_block (heap_free (heap_free h p) q) (a + b) = (r : Int) ∧
      r ≤ s ∧ r + (a + b) ≤ h.table.total ∧
      (heap_malloc_blocks (heap_free (heap_free h p) q) (a + b)).1 =
        heap_block_to_address h (r : Int) ∧
      (s = 0 → r = 0 ∧
        (heap_malloc_blocks (heap_free (heap_free h p) q) (a + b)).1 =
          h.saddr % 4294967296) := by
  obtain ⟨r, hr1, hr2, hr3, _, hr5⟩ :=
    heap_get_start_block_merged (heap_free (heap_free h p) q) s a b ha hin
      (by
        intro x hx1 hx2
        rw [hentries x, if_pos (by push_cast; omega)])
  have hr5b : (heap_malloc_blocks (heap_free (heap_free h p) q) (a + b)).1 =
      heap_block_to_address h (r : Int) := hr5
  refine ⟨r, hr1, hr2, hr3, hr5b, ?_⟩
  intro hs0
  have hr0 : r = 0 := by omega
  refine ⟨hr0, ?_⟩
  rw [hr5b, hr0]
  exact heap_block_to_address_zero h

/-- C14, as stated, fails: in `packed_heap`, a heap of a shape that `heap_create`
accepts, the one-block allocations at blocks 524287 and 524288 are adjacent.
`heap_free` of the address of block 524288 does not reach that block (the `int`
byte offset is `-2^31`), so after both calls entry 524288 is still `0x41`, no two
neighbouring entries are FREE, and the request for two blocks fails:
`heap_get_start_block` returns `-ENOMEM` and `heap_malloc_blocks` the null
address. -/
theorem heap_free_far_neighbours_do_not_merge :
    (heap_create (heap_of_list 0 []) 0x1000 0x80002000 packed_heap.table).1 = 0 ∧
    524287 + 1 + 1 ≤ packed_heap.table.total ∧
    packed_heap.table.entries 524287 =
      (heap_mark_blocks_taken packed_heap 524287 1).table.entries 524287 ∧
    packed_heap.table.entries 524288 =
      (heap_mark_blocks_taken packed_heap 524288 1).table.entries 524288 ∧
    heap_block_to_address packed_heap 524287 = 0x80000000 ∧
    heap_block_to_address packed_heap 524288 = 0x80001000 ∧
    (heap_free (heap_free packed_heap 0x80000000) 0x80001000).table.entries 524287 = 0x00 ∧
    (heap_free (heap_free packed_heap 0x80000000) 0x80001000).table.entries 524288 = 0x41 ∧
    heap_get_start_block (heap_free (heap_free packed_heap 0x80000000) 0x80001000) 2
      = -ENOMEM ∧
    (heap_malloc_blocks (heap_free (heap_free packed_heap 0x80000000) 0x80001000) 2).1 = 0 := by
  have hA : heap_block_to_address packed_heap ((524287 : Nat) : Int) = 0x80000000 := by decide
  have htot : packed_heap.table.total = 524289 := rfl
  have hval : ∀ x : Int, packed_heap.table.entries x =
      if 0 ≤ x ∧ x < 524289 then 0x41 else 0x00 := fun _ => rfl
  -- the first call clears block 524287
  have e1 : ∀ x : Int, (heap_free packed_heap 0x80000000).table.entries x =
      if (524287 : Int) ≤ x ∧ x < 524288 then 0x00 else packed_heap.table.entries x := by
    intro x
    have := heap_free_block_entries packed_heap 524287 1 (le_refl _) (by decide) (by decide)
      (by
        intro j hj
        have : j = 0 := by omega
        subst this
        decide) x
    rw [hA] at this
    rw [this]
    rfl
  -- the second call starts its walk at index -524288 and stops there
  have hblock : heap_address_to_block (heap_free packed_heap 0x80000000) 0x80001000
      = -524288 := by decide
  have e2 : ∀ x : Int,
      (heap_free (heap_free packed_heap 0x80000000) 0x80001000).table.entries x =
        if (-524288 : Int) ≤ x ∧ x < -524287 then 0x00
        else (heap_free packed_heap 0x80000000).table.entries x := by
    intro x
    have hfuel : (((heap_free packed_heap 0x80000000).table.total : Int) - (-524288)).toNat
        = 1048577 := by decide
    show heap_mark_blocks_free_loop
      (((heap_free packed_heap 0x80000000).table.total : Int) -
        heap_address_to_block (heap_free packed_heap 0x80000000) 0x80001000).toNat
      (heap_address_to_block (heap_free packed_heap 0x80000000) 0x80001000)
      (heap_free packed_heap 0x80000000).table.entries x = _
    rw [hblock, hfuel]
    rw [heap_mark_blocks_free_loop_eq 1048577 (-524288) _ 1 (le_refl _) (by decide)
      (by intro j hj; omega)
      (by
        intro _
        rw [e1, if_neg (by decide), hval, if_neg (by decide)]
        decide) x]
    rfl
  have v1 : (heap_free (heap_free packed_heap 0x80000000) 0x80001000).table.entries 524287
      = 0x00 := by
    rw [e2, if_neg (by decide), e1, if_pos (by decide)]
  have v2 : (heap_free (heap_free packed_heap 0x80000000) 0x80001000).table.entries 524288
      = 0x41 := by
    rw [e2, if_neg (by decide), e1, if_neg (by decide), hval, if_pos (by decide)]
  have hstart : heap_get_start_block
      (heap_free (heap_free packed_heap 0x80000000) 0x80001000) 2 = -ENOMEM := by
    rcases heap_get_start_block_sound
        (heap_free (heap_free packed_heap 0x80000000) 0x80001000) 2 with hl | ⟨t, _, ht2, ht3, ht4⟩
    · exact hl
    · exfalso
      have ht2b : t < 524289 := ht2
      have ht : t = 524287 := by
        by_contra hne
        unfold is_free at ht3
        rw [e2, if_neg (by omega), e1, if_neg (by omega), hval, if_pos (by omega)] at ht3
        exact absurd ht3 (by decide)
      subst ht
      have := ht4 524288 (by decide) (by decide) (by decide)
      unfold is_free at this
      have hc : ((524288 : Nat) : Int) = (524288 : Int) := rfl
      rw [hc, v2] at this
      exact absurd this (by decide)
  refine ⟨by decide, by decide, by decide, by decide, by decide, by decide, v1, v2, hstart, ?_⟩
  simp only [heap_malloc_blocks, hstart]
  rw [if_pos (by decide)]

/-- C14 (amended): for every table in which two adjacent allocations occupy
blocks `s .. s+a-1` and `s+a .. s+a+b-1` (`a, b ≥ 1`, inside the table) and
start below block `2^19` (`s + a < 2^19`, so that both byte offsets fit in an
`int`), after `heap_free` of both allocations, in either order, a request for
`a + b` blocks succeeds and `heap_get_start_block(heap, a + b)` returns an index
`≤ s`; when `s = 0`, as on a freshly created heap, the request returns the pool
start. -/
theorem heap_free_neighbours_merge (h : heap) (s a b : Nat) (ha : 1 ≤ a) (hb : 1 ≤ b)
    (hin : s + a + b ≤ h.table.total) (hfit : s + a < 524288)
    (hA : ∀ j : Nat, j < a → h.table.entries ((s + j : Nat) : Int) =
      (heap_mark_blocks_taken h (s : Int) (a : Int)).table.entries ((s + j : Nat) : Int))
    (hB : ∀ j : Nat, j < b → h.table.entries ((s + a + j : Nat) : Int) =
      (heap_mark_blocks_taken h ((s + a : Nat) : Int) (b : Int)).table.entries
        ((s + a + j : Nat) : Int)) :
    (∃ r : Nat,
      heap_get_start_block
        (heap_free (heap_free h (heap_block_to_address h (s : Int)))
          (heap_block_to_address h ((s + a : Nat) : Int))) (a + b) = (r : Int) ∧
      r ≤ s ∧ r + (a + b) ≤ h.table.total ∧
      (heap_malloc_blocks
        (heap_free (heap_free h (heap_block_to_address h (s : Int)))
          (heap_block_to_address h ((s + a : Nat) : Int))) (a + b)).1 =
        heap_block_to_address h (r : Int) ∧
      (s = 0 → r = 0 ∧
        (heap_malloc_blocks
          (heap_free (heap_free h (heap_block_to_address h (s : Int)))
            (heap_block_to_address h ((s + a : Nat) : Int))) (a + b)).1 =
          h.saddr % 4294967296)) ∧
    (∃ r : Nat,
      heap_get_start_block
        (heap_free (heap_free h (heap_block_to_address h ((s + a : Nat) : Int)))
          (heap_block_to_address h (s : Int))) (a + b) = (r : Int) ∧
      r ≤ s ∧ r + (a + b) ≤ h.table.total ∧
      (heap_malloc_blocks
        (heap_free (heap_free h (heap_block_to_address h ((s + a : Nat) : Int)))
          (heap_block_to_address h (s : Int))) (a + b)).1 =
        heap_block_to_address h (r : Int) ∧
      (s = 0 → r = 0 ∧
        (heap_malloc_blocks
          (heap_free (heap_free h (heap_block_to_address h ((s + a : Nat) : Int)))
            (heap_block_to_address h (s : Int))) (a + b)).1 =
          h.saddr % 4294967296)) := by
  constructor
  · apply heap_free_two_then_request h s a b ha hin
    intro x
    exact heap_free_two_entries h s a (s + a) b ha hb (by omega) (by omega) (by omega) hfit
      (Or.inl (le_refl _)) hA hB x
  · apply heap_free_two_then_request h s a b ha hin
    intro x
    rw [heap_free_two_entries h (s + a) b s a hb ha (by omega) (by omega) hfit (by omega)
      (Or.inr (le_refl _)) hB hA x]
    by_cases hx : ((s : Int) ≤ x ∧ x < (s : Int) + (a : Int)) ∨
        (((s + a : Nat) : Int) ≤ x ∧ x < ((s + a : Nat) : Int) + (b : Int))
    · rw [if_pos hx, if_pos (Or.symm hx)]
    · rw [if_neg hx, if_neg (fun hc => hx (Or.symm hc))]

/-- C14 (amended) at a concrete input: on a freshly created six-block heap a
run of three blocks and a run of two blocks are allocated and both are freed;
the request for five blocks is served at block 0, the pool start. -/
theorem heap_free_neighbours_merge_witness :
    two_runs_heap.dump 6 = [0xC1, 0x81, 0x01, 0xC1, 0x01, 0x00] ∧
    heap_get_start_block
      (heap_free (heap_free two_runs_heap (heap_block_to_address two_runs_heap ((0 : Nat) : Int)))
        (heap_block_to_address two_runs_heap ((0 + 3 : Nat) : Int))) (3 + 2) = 0 ∧
    (heap_malloc_blocks
      (heap_free (heap_free two_runs_heap (heap_block_to_address two_runs_heap ((0 : Nat) : Int)))
        (heap_block_to_address two_runs_heap ((0 + 3 : Nat) : Int))) (3 + 2)).1 =
      two_runs_heap.saddr % 4294967296 := by
  obtain ⟨r, hr1, _, _, _, hr5⟩ :=
    (heap_free_neighbours_merge two_runs_heap 0 3 2 (by decide) (by decide) (by decide)
      (by decide) (by decide) (by decide)).1
  have h0 := hr5 rfl
  refine ⟨by decide, ?_, h0.2⟩
  rw [hr1, h0.1]
  rfl

/-- C18 (amended) at concrete inputs: the request for zero bytes in the table
`[0x41, 0x00, 0x00]` returns the address of block 1 and leaves the heap as it
is; in the table `[0x00, 0x41]` it returns the null address. -/
theorem heap_malloc_zero_witness :
    (heap_malloc (heap_of_list 0x01000000 [0x41, 0x00, 0x00]) 0).1 = 0x01001000 ∧
    (heap_malloc (heap_of_list 0x01000000 [0x00, 0x41]) 0).1 = 0 ∧
    (heap_malloc (heap_of_list 0x01000000 [0x41, 0x00, 0x00]) 0).2 =
      heap_of_list 0x01000000 [0x41, 0x00, 0x00] :=
  ⟨by decide, by decide, (heap_malloc_zero (heap_of_list 0x01000000 [0x41, 0x00, 0x00])).1⟩

end PeachOS
